import Mathlib

/-!
Shallow embedding of `src/server/server.js` (an in-memory multi-station
queueing server) and proofs about its queue/state-transition logic.

JavaScript `Map`s keyed by step are embedded as total functions from `String`
(with the fixed key set `stepKeys` standing for the maps' unchanging domains);
JS `Set`s are embedded as duplicate-free lists; JS objects flowing through the
form endpoints are embedded as `String → JsVal` (input side, missing field =
`undefined`) and association lists (output side).  Wall-clock timestamps
(`new Date().toISOString()`) are passed in as an explicit `ts : String`
argument to every handler.  JS `parseFloat` is modelled on integer-valued
strings via `String.toInt?`; no claim depends on fractional values.
-/

namespace QS

/-! ### Data model and handlers (definitions) -/

/-- A JavaScript value as it appears in request bodies / form data. -/
inductive JsVal where
  | undefined
  | null
  | bool (b : Bool)
  | num  (n : Int)
  | str  (s : String)
  deriving DecidableEq

/-- JS truthiness of a `JsVal`. -/
def jsvTruthy : JsVal → Bool
  | .undefined  => false
  | .null   => false
  | .bool b => b
  | .num n  => n != 0
  | .str s  => s != ""

/-- JS `String(v)` conversion (for the values that reach it here). -/
def jsToString : JsVal → String
  | .undefined  => "undefined"
  | .null   => "null"
  | .bool b => cond b "true" "false"
  | .num n  => toString n
  | .str s  => s

/-- JS truthiness of an optional string (absent, `""` are falsy). -/
def optTruthy : Option String → Bool
  | none   => false
  | some s => s != ""

/-- JS `x || null` on an optional string. -/
def normOpt (o : Option String) : Option String :=
  if optTruthy o then o else none

/-- The whitespace characters relevant to JS `trim` here. -/
def isJsWhitespace (c : Char) : Bool :=
  c = ' ' ∨ c = '\t' ∨ c = '\n' ∨ c = '\r'

/-- JS `String.prototype.trim`, modelled over the character list so the
kernel can evaluate it. -/
def jsTrim (s : String) : String :=
  ⟨((s.data.dropWhile isJsWhitespace).reverse.dropWhile isJsWhitespace).reverse⟩

/-- One entry of the `steps` array (source line 22).  The source field
`prefix` is a Lean keyword and is embedded as `pfx`. -/
structure Step where
  key   : String
  label : String
  dept  : String
  pfx   : String
  page  : String
  deriving DecidableEq

/-- The fixed station pipeline (source lines 22-28). -/
def steps : List Step :=
  [ ⟨"registration",       "Registration",                "Enrolment Officer", "A", "registration.html"⟩,
    ⟨"marketing",          "Marketing",                   "Marketing Office",  "A", "marketing.html"⟩,
    ⟨"class_registration", "Student Portal & Timetable",  "Academic",          "A", "timetable.html"⟩,
    ⟨"tuition_payment",    "Tuition Payment",             "Fees",              "A", "fees.html"⟩,
    ⟨"student_id",         "Student ID Card",             "Library",           "A", "idcard.html"⟩ ]

/-- The step keys, i.e. the common domain of the `queues` / `currentServing` /
`holds` maps (which never gain or lose keys in the source). -/
def stepKeys : List String := steps.map (fun s => s.key)

/-- `steps[0]` (source line 150). -/
def firstStep : Step := steps.getD 0 ⟨"", "", "", "", ""⟩

/-- `stepIndexByKey.get key` (source line 43). -/
def stepIndexByKey (key : String) : Option Nat :=
  stepKeys.findIdx? (fun k => k = key)

/-- `nextStepKey` (source lines 44-47). -/
def nextStepKey (key : String) : Option String :=
  match stepIndexByKey key with
  | none   => none
  | some i => stepKeys.get? (i + 1)

/-- `makeTicketId` (source line 31): pre-increments the sequence counter and
produces `prefix ++ toString seq`.  Returns the ticket and the new counter. -/
def makeTicketId (p : String) (seq : Nat) : String × Nat :=
  (p ++ Nat.repr (seq + 1), seq + 1)

/-- One entry of a student's `history` array. -/
structure HistEntry where
  stepKey : String
  action  : String
  ts      : String
  staff   : Option String
  note    : Option String
  deriving DecidableEq

/-- One entry of a student's `notes` array. -/
structure NoteEntry where
  stepKey : String
  text    : String
  staff   : Option String
  ts      : String
  deriving DecidableEq

/-- A per-station form object: the fixed-shape result of a schema function,
as an ordered association list (JS object). -/
abbrev FormObj := List (String × JsVal)

/-- A student record (source lines 152-166).  The fields `campus` and
`intakeDate` are added dynamically by the registration form sync in the
source; here they are present from the start with value `none`. -/
structure Student where
  ticket     : String
  name       : String
  studentId  : Option String
  program    : String
  email      : Option String
  dob        : Option String
  usi        : Option String
  campus     : Option String
  intakeDate : Option String
  stepKey    : String
  status     : String
  history    : List HistEntry
  notes      : List NoteEntry
  forms      : List (String × FormObj)
  createdAt  : String
  deriving DecidableEq

/-- `snapshotStudent` (source lines 123-140). -/
structure Snapshot where
  ticket    : String
  name      : String
  studentId : Option String
  program   : String
  email     : Option String
  dob       : Option String
  usi       : Option String
  stepKey   : String
  status    : String
  forms     : List (String × FormObj)
  createdAt : String
  history   : List HistEntry
  notes     : List NoteEntry
  deriving DecidableEq

def snapshotStudent (s : Student) : Snapshot :=
  ⟨s.ticket, s.name, s.studentId, s.program, s.email, s.dob, s.usi,
   s.stepKey, s.status, s.forms, s.createdAt, s.history, s.notes⟩

/-- The `meta` payloads that `logEvent` receives in the source. -/
inductive EventMeta where
  | none
  | checkinMeta (name program : String)
  | keysMeta (keys : List String)
  | nextMeta (next : Option String)
  | snapMeta (snap : Snapshot)
  deriving DecidableEq

/-- One audit log record (source lines 50-60). -/
structure AuditEvent where
  ts      : String
  event   : String
  stepKey : Option String
  ticket  : Option String
  staff   : Option String
  note    : Option String
  meta    : EventMeta
  deriving DecidableEq

/-- The server's whole mutable state (source lines 31-40). -/
structure ServerState where
  seq            : Nat
  students       : String → Option Student
  queues         : String → List String
  currentServing : String → Option String
  holds          : String → List String
  auditLogs      : List AuditEvent

/-- The state at process start. -/
def initState : ServerState :=
  { seq := 1000
    students := fun _ => none
    queues := fun _ => []
    currentServing := fun _ => none
    holds := fun _ => []
    auditLogs := [] }

/-- Pointwise update of a string-keyed map. -/
def upd {α : Type} (f : String → α) (k : String) (v : α) : String → α :=
  fun x => if x = k then v else f x

/-- JS `Set.add` on a duplicate-free list representation. -/
def setAdd (l : List String) (x : String) : List String :=
  if l.contains x then l else l ++ [x]

/-- JS `Set.delete` on a duplicate-free list representation. -/
def setDel (l : List String) (x : String) : List String :=
  l.filter (fun y => y ≠ x)

/-- The outcome of an HTTP handler, with the source's response payloads. -/
inductive Api (α : Type) where
  | ok (val : α)
  | badRequest (msg : String)
  | notFound (msg : String)
  | conflict (msg : String) (ticket : Option String)
  | serverError
  deriving DecidableEq

/-- `POST /api/checkin` (source lines 146-176). -/
def checkin (st : ServerState) (ts : String)
    (name studentId program email staff : Option String) :
    Api String × ServerState :=
  match name, program with
  | some n, some p =>
    if n = "" ∨ p = "" then (.badRequest "name and program are required", st)
    else
      let (ticket, seq') := makeTicketId firstStep.pfx st.seq
      let student : Student :=
        { ticket := ticket
          name := n
          studentId := normOpt studentId
          program := p
          email := normOpt email
          dob := none, usi := none, campus := none, intakeDate := none
          stepKey := firstStep.key
          status := "queued"
          history := []
          notes := []
          forms := []
          createdAt := ts }
      let student1 :=
        { student with history := student.history ++
            [⟨firstStep.key, "checkin", ts, normOpt staff, none⟩] }
      (.ok ticket,
       { st with
          seq := seq'
          students := upd st.students ticket (some student1)
          queues := upd st.queues firstStep.key (st.queues firstStep.key ++ [ticket])
          auditLogs := st.auditLogs ++
            [⟨ts, "checkin", some firstStep.key, some ticket, normOpt staff, none,
              .checkinMeta n p⟩] })
  | _, _ => (.badRequest "name and program are required", st)

/-- `POST /api/department/:step/start-next` (source lines 179-203). -/
def startNext (st : ServerState) (ts stepKey : String) (staff : Option String) :
    Api (Option String) × ServerState :=
  if stepKey ∈ stepKeys then
    if optTruthy (st.currentServing stepKey) then
      (.conflict "Already serving a student" (st.currentServing stepKey), st)
    else
      match st.queues stepKey with
      | [] =>
        (.ok none, { st with currentServing := upd st.currentServing stepKey none })
      | t :: rest =>
        if t = "" then
          -- `q.shift() || null` turns an empty-string head into `null`
          (.ok none,
           { st with queues := upd st.queues stepKey rest
                     currentServing := upd st.currentServing stepKey none })
        else
          let st1 := { st with queues := upd st.queues stepKey rest
                               currentServing := upd st.currentServing stepKey (some t) }
          match st.students t with
          | none => (.ok (some t), st1)
          | some stu =>
            let stu1 := { stu with
              status := "serving"
              stepKey := stepKey
              history := stu.history ++ [⟨stepKey, "start", ts, normOpt staff, none⟩] }
            (.ok (some t),
             { st1 with
                students := upd st1.students t (some stu1)
                auditLogs := st1.auditLogs ++
                  [⟨ts, "start", some stepKey, some t, normOpt staff, none, .none⟩] })
  else (.notFound "Unknown step", st)

/-- `nullishToNull` (source line 119): `undefined` and `""` become `null`,
anything else is stringified.  Note JS `null` itself is *not* caught and
becomes the string `"null"`. -/
def nullishToNull (v : JsVal) : JsVal :=
  if v = .undefined ∨ v = .str "" then .null else .str (jsToString v)

/-- `numberOrNull` (source line 120); `parseFloat` modelled on integer
strings. -/
def numberOrNull (v : JsVal) : JsVal :=
  match v with
  | .num n => .num n
  | .str s => match s.toInt? with
              | some n => .num n
              | none => .null
  | _ => .null

/-- `oneOf` (source line 121): JS `v == null` (loose) catches `null` and
`undefined`. -/
def oneOf (v : JsVal) (list : List String) : JsVal :=
  if v = .null ∨ v = .undefined ∨ v = .str "" then .null
  else
    let s := jsToString v
    if list.contains s then .str s else .null

/-- JS `!!v`. -/
def toBool (v : JsVal) : JsVal := .bool (jsvTruthy v)

/-- Request form data: JS object as total field lookup (missing = undefined). -/
abbrev Obj := String → JsVal

def regSchema (d : Obj) : FormObj :=
  [ ("studentId",       nullishToNull (d "studentId")),
    ("fullName",        nullishToNull (d "fullName")),
    ("dob",             nullishToNull (d "dob")),
    ("courseName",      nullishToNull (d "courseName")),
    ("intakeDate",      nullishToNull (d "intakeDate")),
    ("campus",          oneOf (d "campus") ["Sydney", "Newcastle"]),
    ("usi",             nullishToNull (d "usi")),
    ("usiRegistered",   toBool (d "usiRegistered")),
    ("emailCreated",    toBool (d "emailCreated")),
    ("detailsVerified", toBool (d "detailsVerified")),
    ("detailsDone",     toBool (d "detailsDone")) ]

def marketingSchema (d : Obj) : FormObj :=
  [ ("marketingOfficer",  nullishToNull (d "marketingOfficer")),
    ("admissionsOfficer", nullishToNull (d "admissionsOfficer")),
    ("agentSurvey",       toBool (d "agentSurvey")),
    ("studyModeF2F",      toBool (d "studyModeF2F")),
    ("documentCertified", toBool (d "documentCertified")),
    ("conditionalCOE",    toBool (d "conditionalCOE")),
    ("scholarships",      toBool (d "scholarships")),
    ("ects",              toBool (d "ects")),
    ("versantInterview",  toBool (d "versantInterview")),
    ("comments",          nullishToNull (d "comments")) ]

def classRegSchema (d : Obj) : FormObj :=
  [ ("academicOfficer",     nullishToNull (d "academicOfficer")),
    ("ls100FromWk4",        toBool (d "ls100FromWk4")),
    ("portalTraining",      toBool (d "portalTraining")),
    ("timetableRegistered", toBool (d "timetableRegistered")),
    ("comments",            nullishToNull (d "comments")) ]

def tuitionSchema (d : Obj) : FormObj :=
  [ ("financeOfficer",    nullishToNull (d "financeOfficer")),
    ("paidFull",          toBool (d "paidFull")),
    ("outstandingAmount", numberOrNull (d "outstandingAmount")),
    ("comments",          nullishToNull (d "comments")) ]

def studentIdSchema (d : Obj) : FormObj :=
  [ ("libraryOfficer", nullishToNull (d "libraryOfficer")),
    ("photoTaken",     toBool (d "photoTaken")),
    ("idCardIssued",   toBool (d "idCardIssued")),
    ("campus",         oneOf (d "campus") ["Sydney", "Newcastle"]),
    ("comments",       nullishToNull (d "comments")) ]

/-- `FORM_SCHEMAS` (source lines 72-118): step key → normalization function. -/
def FORM_SCHEMAS (k : String) : Option (Obj → FormObj) :=
  if k = "registration" then some regSchema
  else if k = "marketing" then some marketingSchema
  else if k = "class_registration" then some classRegSchema
  else if k = "tuition_payment" then some tuitionSchema
  else if k = "student_id" then some studentIdSchema
  else none

/-- Field lookup in a form object (JS property access, missing = undef). -/
def getField (l : FormObj) (k : String) : JsVal :=
  (List.lookup k l).getD .undefined

/-- JS object spread `{...old, ...incoming}`: keys of `old` keep their
position (overridden values from `incoming`), new keys of `incoming` are
appended in order. -/
def mergeObj (old incoming : FormObj) : FormObj :=
  old.map (fun p => match List.lookup p.1 incoming with
                    | some v => (p.1, v)
                    | none => p)
  ++ incoming.filter (fun q => (List.lookup q.1 old).isNone)

/-- The string payload of a truthy `JsVal` produced by the schemas. -/
def jsAsStr : JsVal → String
  | .str s => s
  | v => jsToString v

/-- The registration-step sync of canonical top-level fields
(source lines 224-232). -/
def syncReg (stu : Student) (incoming : FormObj) : Student :=
  let stu := if jsvTruthy (getField incoming "studentId") then
               { stu with studentId := some (jsAsStr (getField incoming "studentId")) } else stu
  let stu := if jsvTruthy (getField incoming "fullName") then
               { stu with name := jsAsStr (getField incoming "fullName") } else stu
  let stu := if jsvTruthy (getField incoming "dob") then
               { stu with dob := some (jsAsStr (getField incoming "dob")) } else stu
  let stu := if jsvTruthy (getField incoming "courseName") then
               { stu with program := jsAsStr (getField incoming "courseName") } else stu
  let stu := if jsvTruthy (getField incoming "usi") then
               { stu with usi := some (jsAsStr (getField incoming "usi")) } else stu
  let stu := if jsvTruthy (getField incoming "campus") then
               { stu with campus := some (jsAsStr (getField incoming "campus")) } else stu
  let stu := if jsvTruthy (getField incoming "intakeDate") then
               { stu with intakeDate := some (jsAsStr (getField incoming "intakeDate")) } else stu
  stu

/-- `POST /api/department/:step/form` (source lines 206-239). -/
def formSave (st : ServerState) (ts stepKey : String) (staff : Option String)
    (data : Option Obj) (ticket : Option String) : Api FormObj × ServerState :=
  let tOpt := if optTruthy ticket then ticket else st.currentServing stepKey
  if optTruthy tOpt then
    let t := tOpt.getD ""
    match st.students t with
    | none => (.notFound "Ticket not found", st)
    | some stu =>
      match FORM_SCHEMAS stepKey with
      | none => (.notFound "Unknown step", st)
      | some schema =>
        let incoming := schema (data.getD (fun _ => .undefined))
        let oldForm := (List.lookup stepKey stu.forms).getD []
        let newForm := mergeObj oldForm incoming
        let stu1 := { stu with forms :=
          (stu.forms.map (fun p => if p.1 = stepKey then (stepKey, newForm) else p))
          ++ (if (List.lookup stepKey stu.forms).isNone then [(stepKey, newForm)] else []) }
        let stu2 := if stepKey = "registration" then syncReg stu1 incoming else stu1
        let stu3 := { stu2 with history := stu2.history ++
          [⟨stepKey, "form_save", ts, normOpt staff, none⟩] }
        (.ok newForm,
         { st with
            students := upd st.students t (some stu3)
            auditLogs := st.auditLogs ++
              [⟨ts, "form_save", some stepKey, some t, normOpt staff, none,
                .keysMeta (incoming.map Prod.fst)⟩] })
  else (.conflict "No ticket specified and none currently serving" none, st)

/-- `POST /api/department/:step/complete` (source lines 242-276). -/
def complete (st : ServerState) (ts stepKey : String) (staff noteB : Option String) :
    Api (Option String) × ServerState :=
  if optTruthy (st.currentServing stepKey) then
    let serving := (st.currentServing stepKey).getD ""
    match st.students serving with
    | none => (.notFound "Student not found", st)
    | some stu =>
      let trimmed := jsTrim (noteB.getD "")
      let noteVal : Option String :=
        if noteB.isSome ∧ trimmed ≠ "" then some trimmed else none
      let stu1 := { stu with history := stu.history ++
        [(⟨stepKey, "complete", ts, normOpt staff, noteVal⟩ : HistEntry)] }
      let stu2 := if noteVal.isSome then
          { stu1 with notes := stu1.notes ++ [(⟨stepKey, trimmed, normOpt staff, ts⟩ : NoteEntry)] }
        else stu1
      let nxt := nextStepKey stepKey
      let log1 := st.auditLogs ++
        [⟨ts, "complete", some stepKey, some serving, normOpt staff, noteVal,
          .nextMeta nxt⟩]
      match nxt with
      | some k2 =>
        let stu3 := { stu2 with stepKey := k2, status := "queued" }
        (.ok (some k2),
         { st with
            students := upd st.students serving (some stu3)
            currentServing := upd st.currentServing stepKey none
            queues := upd st.queues k2 (st.queues k2 ++ [serving])
            auditLogs := log1 })
      | none =>
        let stu3 := { stu2 with status := "complete" }
        (.ok none,
         { st with
            students := upd st.students serving (some stu3)
            currentServing := upd st.currentServing stepKey none
            auditLogs := log1 ++
              [⟨ts, "finalize", some stepKey, some serving, normOpt staff, none,
                .snapMeta (snapshotStudent stu3)⟩] })
  else (.conflict "No student currently serving" none, st)

/-- `POST /api/department/:step/hold` (source lines 279-295).  When the step
key is not a real station, the source crashes on `holds.get(stepKey).add`
*after* clearing the serving slot and mutating the student: that partial
mutation is the `serverError` branch. -/
def hold (st : ServerState) (ts stepKey : String) (staff : Option String) :
    Api Unit × ServerState :=
  if optTruthy (st.currentServing stepKey) then
    let serving := (st.currentServing stepKey).getD ""
    let st1 := { st with currentServing := upd st.currentServing stepKey none }
    match st.students serving with
    | none => (.ok (), st1)
    | some stu =>
      let stu1 := { stu with
        status := "hold"
        history := stu.history ++ [⟨stepKey, "hold", ts, normOpt staff, none⟩] }
      if stepKey ∈ stepKeys then
        (.ok (),
         { st1 with
            students := upd st1.students serving (some stu1)
            holds := upd st1.holds stepKey (setAdd (st1.holds stepKey) serving)
            auditLogs := st1.auditLogs ++
              [⟨ts, "hold", some stepKey, some serving, normOpt staff, none, .none⟩] })
      else (.serverError, { st1 with students := upd st1.students serving (some stu1) })
  else (.conflict "No student currently serving" none, st)

/-- `POST /api/department/:step/return/:ticket` (source lines 298-314).  On an
unknown step the source crashes on `holds.get(stepKey).has` before any
mutation (`serverError`, state unchanged). -/
def ret (st : ServerState) (ts stepKey ticket : String) (staff : Option String) :
    Api Unit × ServerState :=
  if stepKey ∈ stepKeys then
    if (st.holds stepKey).contains ticket then
      let st1 := { st with
        holds := upd st.holds stepKey (setDel (st.holds stepKey) ticket)
        queues := upd st.queues stepKey (st.queues stepKey ++ [ticket]) }
      match st.students ticket with
      | none => (.ok (), st1)
      | some stu =>
        let stu1 := { stu with
          status := "queued"
          history := stu.history ++ [⟨stepKey, "return", ts, normOpt staff, none⟩] }
        (.ok (),
         { st1 with
            students := upd st1.students ticket (some stu1)
            auditLogs := st1.auditLogs ++
              [⟨ts, "return", some stepKey, some ticket, normOpt staff, none, .none⟩] })
    else (.notFound "Ticket not on hold at this step", st)
  else (.serverError, st)

/-- `POST /api/department/:step/skip` (source lines 317-333).  On an unknown
step (impossible with a truthy serving slot in reachable states) the source
crashes on `queues.get(stepKey).push` after clearing the serving slot. -/
def skip (st : ServerState) (ts stepKey : String) (staff : Option String) :
    Api Unit × ServerState :=
  if optTruthy (st.currentServing stepKey) then
    let serving := (st.currentServing stepKey).getD ""
    let st1 := { st with currentServing := upd st.currentServing stepKey none }
    if stepKey ∈ stepKeys then
      let st2 := { st1 with queues := upd st1.queues stepKey (st1.queues stepKey ++ [serving]) }
      match st.students serving with
      | none => (.ok (), st2)
      | some stu =>
        let stu1 := { stu with
          status := "queued"
          history := stu.history ++ [⟨stepKey, "skip", ts, normOpt staff, none⟩] }
        (.ok (),
         { st2 with
            students := upd st2.students serving (some stu1)
            auditLogs := st2.auditLogs ++
              [⟨ts, "skip", some stepKey, some serving, normOpt staff, none, .none⟩] })
    else (.serverError, st1)
  else (.conflict "No student currently serving" none, st)

/-- `POST /api/department/:step/note` (source lines 336-350). -/
def addNote (st : ServerState) (ts stepKey : String)
    (text staff ticket : Option String) : Api NoteEntry × ServerState :=
  let tOpt := if optTruthy ticket then ticket else st.currentServing stepKey
  if ¬ optTruthy text ∨ jsTrim (text.getD "") = "" then
    (.badRequest "note text required", st)
  else if optTruthy tOpt then
    let t := tOpt.getD ""
    match st.students t with
    | none => (.notFound "Ticket not found", st)
    | some stu =>
      let ne : NoteEntry := ⟨stepKey, jsTrim (text.getD ""), normOpt staff, ts⟩
      (.ok ne,
       { st with
          students := upd st.students t (some { stu with notes := stu.notes ++ [ne] })
          auditLogs := st.auditLogs ++
            [⟨ts, "note_add", some stepKey, some t, normOpt staff, some ne.text, .none⟩] })
  else (.conflict "No ticket specified and none currently serving" none, st)

/-- One mutating API request with its inputs. -/
inductive Op where
  | checkin (ts : String) (name studentId program email staff : Option String)
  | startNext (ts stepKey : String) (staff : Option String)
  | formSave (ts stepKey : String) (staff : Option String)
      (data : Option Obj) (ticket : Option String)
  | complete (ts stepKey : String) (staff noteB : Option String)
  | hold (ts stepKey : String) (staff : Option String)
  | ret (ts stepKey ticket : String) (staff : Option String)
  | skip (ts stepKey : String) (staff : Option String)
  | addNote (ts stepKey : String) (text staff ticket : Option String)

/-- The state after handling one request (response discarded). -/
def applyOp (st : ServerState) : Op → ServerState
  | .checkin ts n sid p e sf => (checkin st ts n sid p e sf).2
  | .startNext ts k sf => (startNext st ts k sf).2
  | .formSave ts k sf d t => (formSave st ts k sf d t).2
  | .complete ts k sf nt => (complete st ts k sf nt).2
  | .hold ts k sf => (hold st ts k sf).2
  | .ret ts k t sf => (ret st ts k t sf).2
  | .skip ts k sf => (skip st ts k sf).2
  | .addNote ts k tx sf t => (addNote st ts k tx sf t).2

/-- The state after a sequence of requests. -/
def run (st : ServerState) (ops : List Op) : ServerState :=
  ops.foldl applyOp st

/-- Decimal digits of `n`, most significant first. -/
def natDigs (n : Nat) : List Char :=
  if h : n < 10 then [Nat.digitChar n]
  else natDigs (n / 10) ++ [Nat.digitChar (n % 10)]
decreasing_by exact Nat.div_lt_self (by omega) (by omega)

/-- `t` is in no station's waiting queue. -/
def NotInQueues (st : ServerState) (t : String) : Prop := ∀ k, t ∉ st.queues k

/-- `t` is in no station's serving slot. -/
def NotServing (st : ServerState) (t : String) : Prop :=
  ∀ k, st.currentServing k ≠ some t

/-- `t` is in no station's held set. -/
def NotHeld (st : ServerState) (t : String) : Prop := ∀ k, t ∉ st.holds k

/-- `t` is in no queue, no serving slot and no held set. -/
def Nowhere (st : ServerState) (t : String) : Prop :=
  NotInQueues st t ∧ NotServing st t ∧ NotHeld st t

/-- `t` waits exactly once in station `k0`'s queue and is nowhere else. -/
def QueuedAt (st : ServerState) (t k0 : String) : Prop :=
  k0 ∈ stepKeys ∧ (st.queues k0).count t = 1 ∧
  (∀ k, k ≠ k0 → t ∉ st.queues k) ∧ NotServing st t ∧ NotHeld st t

/-- `t` occupies exactly station `k0`'s serving slot and is nowhere else. -/
def ServingAt (st : ServerState) (t k0 : String) : Prop :=
  k0 ∈ stepKeys ∧ st.currentServing k0 = some t ∧
  (∀ k, k ≠ k0 → st.currentServing k ≠ some t) ∧ NotInQueues st t ∧ NotHeld st t

/-- `t` sits exactly once in station `k0`'s held set and is nowhere else. -/
def HeldAt (st : ServerState) (t k0 : String) : Prop :=
  k0 ∈ stepKeys ∧ (st.holds k0).count t = 1 ∧
  (∀ k, k ≠ k0 → t ∉ st.holds k) ∧ NotInQueues st t ∧ NotServing st t

/-- The placement a student record's status dictates. -/
def StatusOk (st : ServerState) (t : String) (stu : Student) : Prop :=
  (stu.status = "queued" ∧ QueuedAt st t stu.stepKey) ∨
  (stu.status = "serving" ∧ ServingAt st t stu.stepKey) ∨
  (stu.status = "hold" ∧ HeldAt st t stu.stepKey) ∨
  (stu.status = "complete" ∧ Nowhere st t)

/-- Every issued ticket is `"A" ++ digits` with a number that the sequence
counter has already passed. -/
def TicketShape (seq : Nat) (t : String) : Prop :=
  ∃ n, 1000 < n ∧ n ≤ seq ∧ t = "A" ++ Nat.repr n

/-- The server-state invariant: the counter is past its start value, the
step-keyed maps are empty off their fixed domain, every student record's
status matches its ticket's unique placement, and unknown tickets are
nowhere. -/
def Inv (st : ServerState) : Prop :=
  1000 ≤ st.seq ∧
  (∀ k, k ∉ stepKeys → st.queues k = [] ∧ st.currentServing k = none ∧ st.holds k = []) ∧
  (∀ t stu, st.students t = some stu →
    stu.ticket = t ∧ TicketShape st.seq t ∧ StatusOk st t stu) ∧
  (∀ t, st.students t = none → Nowhere st t)

/-- How many times ticket `t` occurs across all stations' waiting queues,
serving slots and held sets. -/
def occurrences (st : ServerState) (t : String) : Nat :=
  (stepKeys.map (fun k => (st.queues k).count t)).sum +
  (stepKeys.map (fun k => if st.currentServing k = some t then 1 else 0)).sum +
  (stepKeys.map (fun k => (st.holds k).count t)).sum

/-- Some occurrence of `a` comes strictly before some occurrence of `b`. -/
def precedesB (l : List String) (a b : String) : Bool :=
  match l with
  | [] => false
  | x :: xs => (decide (x = a) && decide (b ∈ xs)) || precedesB xs a b

/-- One check-in from the initial state. -/
def stOne : ServerState :=
  (checkin initState "t1" (some "Jane") none (some "BA") none none).2

/-- Two check-ins from the initial state. -/
def opsTwo : List Op :=
  [.checkin "t1" (some "Jane") none (some "BA") none none,
   .checkin "t2" (some "Bob") none (some "BSc") none none]

def stTwo : ServerState := run initState opsTwo

/-- One check-in, then start-next: `A1001` being served at registration. -/
def stServing : ServerState := (startNext stOne "t2" "registration" none).2

/-- … then hold: `A1001` held at registration. -/
def stHeld : ServerState := (hold stServing "t3" "registration" none).2

/-- The student record right after the first check-in. -/
def stuJane : Student :=
  { ticket := "A1001", name := "Jane", studentId := none, program := "BA"
    email := none, dob := none, usi := none, campus := none, intakeDate := none
    stepKey := "registration", status := "queued"
    history := [⟨"registration", "checkin", "t1", none, none⟩]
    notes := [], forms := [], createdAt := "t1" }

/-- The same record while being served. -/
def stuJaneServing : Student :=
  { stuJane with
    status := "serving"
    history := stuJane.history ++ [⟨"registration", "start", "t2", none, none⟩] }

/-- The same record while held. -/
def stuJaneHold : Student :=
  { stuJaneServing with
    status := "hold"
    history := stuJaneServing.history ++
      [⟨"registration", "hold", "t3", none, none⟩] }

/-- A handcrafted state with `A1001` being served at the last station. -/
def stuLast : Student :=
  { stuJane with status := "serving", stepKey := "student_id" }

def stLast : ServerState :=
  { seq := 1001
    students := upd (fun _ => none) "A1001" (some stuLast)
    queues := fun _ => []
    currentServing := upd (fun _ => none) "student_id" (some "A1001")
    holds := fun _ => []
    auditLogs := [] }

/-- A handcrafted invariant state with a completed student. -/
def stuC : Student :=
  { stuJane with status := "complete", stepKey := "student_id" }

def stC : ServerState :=
  { seq := 1001
    students := upd (fun _ => none) "A1001" (some stuC)
    queues := fun _ => []
    currentServing := fun _ => none
    holds := fun _ => []
    auditLogs := [] }

/-! ### Theorems -/

@[simp] theorem upd_same {α : Type} (f : String → α) (k : String) (v : α) :
    upd f k v k = v := by simp [upd]

theorem upd_ne {α : Type} (f : String → α) (k : String) (v : α) {x : String}
    (h : x ≠ k) : upd f k v x = f x := by simp [upd, h]

theorem natDigs_lt (n : Nat) (h : n < 10) : natDigs n = [Nat.digitChar n] := by
  rw [natDigs]; simp [h]

theorem natDigs_ge (n : Nat) (h : ¬ n < 10) :
    natDigs n = natDigs (n / 10) ++ [Nat.digitChar (n % 10)] := by
  rw [natDigs]; simp [h]

theorem natDigs_ne_nil (n : Nat) : natDigs n ≠ [] := by
  by_cases h : n < 10
  · rw [natDigs_lt n h]; simp
  · rw [natDigs_ge n h]; simp

theorem toDigitsCore_eq_natDigs :
    ∀ f n ds, 0 < f → n < 10 ^ f →
      Nat.toDigitsCore 10 f n ds = natDigs n ++ ds := by
  intro f
  induction f with
  | zero => omega
  | succ f ih =>
    intro n ds _ hlt
    by_cases h10 : n / 10 = 0
    · have hn : n < 10 := by omega
      simp only [Nat.toDigitsCore, h10, if_true]
      rw [natDigs]
      simp [hn, Nat.mod_eq_of_lt hn]
    · have hn : ¬ n < 10 := by
        intro h; exact h10 (Nat.div_eq_of_lt h)
      have hfpos : 0 < f := by
        rcases Nat.eq_zero_or_pos f with hf | hf
        · subst hf; simp at hlt; omega
        · exact hf
      have hdiv : n / 10 < 10 ^ f := by
        rw [Nat.div_lt_iff_lt_mul (by omega : (0:Nat) < 10)]
        calc n < 10 ^ (f + 1) := hlt
          _ = 10 ^ f * 10 := by rw [pow_succ]
      simp only [Nat.toDigitsCore, h10, if_false]
      rw [ih (n / 10) _ hfpos hdiv]
      conv_rhs => rw [natDigs]
      simp [hn]

theorem digitChar_inj_lt :
    ∀ a, a < 10 → ∀ b, b < 10 → Nat.digitChar a = Nat.digitChar b → a = b := by
  decide

theorem natDigs_inj (m n : Nat) (h : natDigs m = natDigs n) : m = n := by
  by_cases hm : m < 10 <;> by_cases hn : n < 10
  · rw [natDigs_lt m hm, natDigs_lt n hn] at h
    simp at h
    exact digitChar_inj_lt m hm n hn h
  · rw [natDigs_lt m hm, natDigs_ge n hn] at h
    have h1 : (1 : Nat) = (natDigs (n / 10)).length + 1 := by
      simpa using congrArg List.length h
    have h2 : (natDigs (n / 10)).length = 0 := by omega
    exact (natDigs_ne_nil _ (List.length_eq_zero.mp h2)).elim
  · rw [natDigs_ge m hm, natDigs_lt n hn] at h
    have h1 : (natDigs (m / 10)).length + 1 = 1 := by
      simpa using congrArg List.length h
    have h2 : (natDigs (m / 10)).length = 0 := by omega
    exact (natDigs_ne_nil _ (List.length_eq_zero.mp h2)).elim
  · rw [natDigs_ge m hm, natDigs_ge n hn] at h
    have hr := congrArg List.reverse h
    simp at hr
    obtain ⟨hd, htl⟩ := hr
    have hdiv : m / 10 = n / 10 := by
      apply natDigs_inj
      rw [← List.reverse_reverse (natDigs (m / 10)), htl, List.reverse_reverse]
    have hmod : m % 10 = n % 10 :=
      digitChar_inj_lt _ (Nat.mod_lt _ (by omega)) _ (Nat.mod_lt _ (by omega)) hd
    omega
decreasing_by exact Nat.div_lt_self (by omega) (by omega)

theorem repr_inj {m n : Nat} (h : Nat.repr m = Nat.repr n) : m = n := by
  have hm : Nat.toDigits 10 m = natDigs m := by
    have := toDigitsCore_eq_natDigs (m + 1) m [] (by omega)
      (lt_of_lt_of_le (Nat.lt_pow_self (by omega) m) (Nat.pow_le_pow_right (by omega) (by omega)))
    simpa [Nat.toDigits] using this
  have hn : Nat.toDigits 10 n = natDigs n := by
    have := toDigitsCore_eq_natDigs (n + 1) n [] (by omega)
      (lt_of_lt_of_le (Nat.lt_pow_self (by omega) n) (Nat.pow_le_pow_right (by omega) (by omega)))
    simpa [Nat.toDigits] using this
  apply natDigs_inj
  rw [← hm, ← hn]
  have : (Nat.toDigits 10 m).asString = (Nat.toDigits 10 n).asString := h
  simpa [List.asString, String.ext_iff] using this

/-- Ticket identifiers are injective in the sequence number. -/
theorem ticket_inj {m n : Nat} (h : "A" ++ Nat.repr m = "A" ++ Nat.repr n) : m = n := by
  apply repr_inj
  have : ("A" ++ Nat.repr m).data = ("A" ++ Nat.repr n).data := by rw [h]
  simp [String.data_append] at this
  exact String.ext this

theorem ticketShape_ne_empty {seq : Nat} {t : String} (h : TicketShape seq t) :
    t ≠ "" := by
  obtain ⟨n, -, -, rfl⟩ := h
  intro hcon
  have : ("A" ++ Nat.repr n).data = ("" : String).data := by rw [hcon]
  simp [String.data_append] at this

theorem inv_init : Inv initState := by
  refine ⟨by norm_num [initState], ?_, ?_, ?_⟩
  · intro k _; exact ⟨rfl, rfl, rfl⟩
  · intro t stu h; simp [initState] at h
  · intro t _
    exact ⟨fun k => by simp [initState], fun k => by simp [initState],
           fun k => by simp [initState]⟩

/-- Under the invariant, a ticket in a waiting queue has a student record in
status `"queued"` whose station is that queue's station. -/
theorem inv_mem_queue (h : Inv st) {k t : String} (hm : t ∈ st.queues k) :
    ∃ stu, st.students t = some stu ∧ stu.status = "queued" ∧ stu.stepKey = k := by
  obtain ⟨-, -, h3, h4⟩ := h
  cases hst : st.students t with
  | none => exact absurd hm ((h4 t hst).1 k)
  | some stu =>
    refine ⟨stu, rfl, ?_⟩
    rcases (h3 t stu hst).2.2 with ⟨hq, hloc⟩ | ⟨-, hloc⟩ | ⟨-, hloc⟩ | ⟨-, hloc⟩
    · refine ⟨hq, ?_⟩
      by_contra hk
      exact hloc.2.2.1 k (fun he => hk he.symm) hm
    · exact absurd hm (hloc.2.2.2.1 k)
    · exact absurd hm (hloc.2.2.2.1 k)
    · exact absurd hm (hloc.1 k)

/-- Under the invariant, a ticket in a serving slot has a student record in
status `"serving"` at that station, and the slot's station is real. -/
theorem inv_serving (h : Inv st) {k t : String} (hm : st.currentServing k = some t) :
    ∃ stu, st.students t = some stu ∧ stu.status = "serving" ∧ stu.stepKey = k ∧
      k ∈ stepKeys ∧ t ≠ "" := by
  obtain ⟨-, h2, h3, h4⟩ := h
  have hk : k ∈ stepKeys := by
    by_contra hk
    rw [(h2 k hk).2.1] at hm
    exact Option.noConfusion hm
  cases hst : st.students t with
  | none => exact absurd hm ((h4 t hst).2.1 k)
  | some stu =>
    refine ⟨stu, rfl, ?_⟩
    have hne : t ≠ "" := ticketShape_ne_empty (h3 t stu hst).2.1
    rcases (h3 t stu hst).2.2 with ⟨-, hloc⟩ | ⟨hs, hloc⟩ | ⟨-, hloc⟩ | ⟨-, hloc⟩
    · exact absurd hm (hloc.2.2.2.1 k)
    · refine ⟨hs, ?_, hk, hne⟩
      by_contra hkk
      exact hloc.2.2.1 k (fun he => hkk he.symm) hm
    · exact absurd hm (hloc.2.2.2.2 k)
    · exact absurd hm (hloc.2.1 k)

/-- Under the invariant, a ticket in a held set has a student record in
status `"hold"` at that station. -/
theorem inv_mem_holds (h : Inv st) {k t : String} (hm : t ∈ st.holds k) :
    ∃ stu, st.students t = some stu ∧ stu.status = "hold" ∧ stu.stepKey = k := by
  obtain ⟨-, -, h3, h4⟩ := h
  cases hst : st.students t with
  | none => exact absurd hm ((h4 t hst).2.2 k)
  | some stu =>
    refine ⟨stu, rfl, ?_⟩
    rcases (h3 t stu hst).2.2 with ⟨-, hloc⟩ | ⟨-, hloc⟩ | ⟨hh, hloc⟩ | ⟨-, hloc⟩
    · exact absurd hm (hloc.2.2.2.2 k)
    · exact absurd hm (hloc.2.2.2.2 k)
    · refine ⟨hh, ?_⟩
      by_contra hk
      exact hloc.2.2.1 k (fun he => hk he.symm) hm
    · exact absurd hm (hloc.2.2 k)

/-- Under the invariant a serving slot is `none` or holds a nonempty ticket,
so a falsy slot is exactly an empty one for membership purposes. -/
theorem inv_not_truthy_serving (h : Inv st) {k : String}
    (hf : ¬ optTruthy (st.currentServing k)) (t : String) (ht : t ≠ "") :
    st.currentServing k ≠ some t := by
  intro he
  rw [he] at hf
  simp [optTruthy] at hf
  exact ht hf

/-- Under the invariant, each ticket occurs at most once in each queue. -/
theorem inv_queue_count_le_one (h : Inv st) (k t : String) :
    (st.queues k).count t ≤ 1 := by
  by_cases hm : t ∈ st.queues k
  · obtain ⟨stu, hst, hq, hkey⟩ := inv_mem_queue h hm
    rcases (h.2.2.1 t stu hst).2.2 with ⟨-, hloc⟩ | ⟨hs, -⟩ | ⟨hh, -⟩ | ⟨hc, -⟩
    · have hcnt := hloc.2.1
      rw [hkey] at hcnt
      omega
    · rw [hq] at hs; exact absurd hs (by decide)
    · rw [hq] at hh; exact absurd hh (by decide)
    · rw [hq] at hc; exact absurd hc (by decide)
  · rw [List.count_eq_zero.mpr hm]; omega

/-- Transfer a placement along a state change that leaves `t`'s occurrence
counts and slot membership untouched. -/
theorem statusOk_congr {st st' : ServerState} {t : String} {stu : Student}
    (hq : ∀ k, (st'.queues k).count t = (st.queues k).count t)
    (hs : ∀ k, st'.currentServing k = some t ↔ st.currentServing k = some t)
    (hh : ∀ k, (st'.holds k).count t = (st.holds k).count t)
    (h : StatusOk st t stu) : StatusOk st' t stu := by
  have hqm : ∀ k, t ∈ st'.queues k ↔ t ∈ st.queues k := fun k => by
    rw [← List.count_pos_iff_mem, ← List.count_pos_iff_mem, hq]
  have hhm : ∀ k, t ∈ st'.holds k ↔ t ∈ st.holds k := fun k => by
    rw [← List.count_pos_iff_mem, ← List.count_pos_iff_mem, hh]
  rcases h with ⟨hst, hk, hc, ho, hns, hnh⟩ | ⟨hst, hk, hc, ho, hnq, hnh⟩ |
    ⟨hst, hk, hc, ho, hnq, hns⟩ | ⟨hst, hnq, hns, hnh⟩
  · exact Or.inl ⟨hst, hk, by rw [hq]; exact hc,
      fun k hkk => (hqm k).not.mpr (ho k hkk),
      fun k => fun he => hns k ((hs k).mp he), fun k => (hhm k).not.mpr (hnh k)⟩
  · exact Or.inr (Or.inl ⟨hst, hk, (hs _).mpr hc,
      fun k hkk => fun he => ho k hkk ((hs k).mp he),
      fun k => (hqm k).not.mpr (hnq k), fun k => (hhm k).not.mpr (hnh k)⟩)
  · exact Or.inr (Or.inr (Or.inl ⟨hst, hk, by rw [hh]; exact hc,
      fun k hkk => (hhm k).not.mpr (ho k hkk),
      fun k => (hqm k).not.mpr (hnq k), fun k => fun he => hns k ((hs k).mp he)⟩))
  · exact Or.inr (Or.inr (Or.inr ⟨hst, fun k => (hqm k).not.mpr (hnq k),
      fun k => fun he => hns k ((hs k).mp he), fun k => (hhm k).not.mpr (hnh k)⟩))

/-- Transfer `Nowhere` along a state change that adds no new occurrences
of `t`. -/
theorem nowhere_congr {st st' : ServerState} {t : String}
    (hq : ∀ k, t ∈ st'.queues k → t ∈ st.queues k)
    (hs : ∀ k, st'.currentServing k = some t → st.currentServing k = some t)
    (hh : ∀ k, t ∈ st'.holds k → t ∈ st.holds k)
    (h : Nowhere st t) : Nowhere st' t :=
  ⟨fun k hm => h.1 k (hq k hm), fun k he => h.2.1 k (hs k he),
   fun k hm => h.2.2 k (hh k hm)⟩

theorem mem_stepKeys_first : firstStep.key ∈ stepKeys := by decide

/-- `checkin` preserves the invariant. -/
theorem inv_checkin (h : Inv st)
    (ts : String) (name studentId program email staff : Option String) :
    Inv (checkin st ts name studentId program email staff).2 := by
  obtain ⟨h1, h2, h3, h4⟩ := h
  match name, program with
  | none, _ => exact ⟨h1, h2, h3, h4⟩
  | some n, none => exact ⟨h1, h2, h3, h4⟩
  | some n, some p =>
    by_cases hemp : n = "" ∨ p = ""
    · simp only [checkin, if_pos hemp]
      exact ⟨h1, h2, h3, h4⟩
    · simp only [checkin, if_neg hemp, makeTicketId,
        show firstStep.pfx = "A" from rfl]
      set tk := "A" ++ Nat.repr (st.seq + 1) with htk
      -- the new ticket is fresh: no record, hence nowhere
      have hfresh : st.students tk = none := by
        cases hst : st.students tk with
        | none => rfl
        | some stu =>
          obtain ⟨m, hm1, hm2, hm3⟩ := (h3 tk stu hst).2.1
          have := ticket_inj (htk ▸ hm3.symm)
          omega
      have hnw : Nowhere st tk := h4 tk hfresh
      refine ⟨by dsimp only; omega, ?_, ?_, ?_⟩
      · intro k hk
        have hkf : k ≠ firstStep.key := fun he => hk (he ▸ mem_stepKeys_first)
        dsimp only
        exact ⟨by rw [upd_ne _ _ _ hkf]; exact (h2 k hk).1, (h2 k hk).2.1,
               (h2 k hk).2.2⟩
      · intro t stu hst
        dsimp only at hst ⊢
        by_cases hteq : t = tk
        · subst hteq
          rw [upd_same] at hst
          cases hst
          refine ⟨rfl, ⟨st.seq + 1, by omega, by omega, htk⟩, ?_⟩
          refine Or.inl ⟨rfl, mem_stepKeys_first, ?_, ?_, hnw.2.1, hnw.2.2⟩
          · dsimp only
            rw [upd_same, List.count_append, List.count_eq_zero.mpr (hnw.1 _)]
            simp
          · intro k hkk
            dsimp only at hkk ⊢
            rw [upd_ne _ _ _ hkk]
            exact hnw.1 k
        · rw [upd_ne _ _ _ hteq] at hst
          obtain ⟨hb1, hb2, hb3⟩ := h3 t stu hst
          refine ⟨hb1, ?_, ?_⟩
          · obtain ⟨m, hm1, hm2, hm3⟩ := hb2
            exact ⟨m, hm1, by omega, hm3⟩
          · refine statusOk_congr ?_ ?_ ?_ hb3
            · intro k
              dsimp only
              by_cases hkf : k = firstStep.key
              · subst hkf
                rw [upd_same, List.count_append]
                have : List.count t [tk] = 0 := by
                  simp [List.count_singleton]
                  intro he
                  exact hteq he.symm
                omega
              · rw [upd_ne _ _ _ hkf]
            · intro k
              exact Iff.rfl
            · intro k
              rfl
      · intro t hst
        dsimp only at hst ⊢
        have hteq : t ≠ tk := by
          intro he
          subst he
          rw [upd_same] at hst
          exact Option.noConfusion hst
        rw [upd_ne _ _ _ hteq] at hst
        refine nowhere_congr ?_ ?_ ?_ (h4 t hst)
        · intro k hm
          dsimp only at hm
          by_cases hkf : k = firstStep.key
          · subst hkf
            rw [upd_same] at hm
            rcases List.mem_append.mp hm with hm | hm
            · exact hm
            · simp at hm
              exact absurd hm hteq
          · rwa [upd_ne _ _ _ hkf] at hm
        · intro k he
          exact he
        · intro k hm
          exact hm

/-- `startNext` preserves the invariant. -/
theorem inv_startNext (h : Inv st) (ts stepKey : String) (staff : Option String) :
    Inv (startNext st ts stepKey staff).2 := by
  by_cases hk : stepKey ∈ stepKeys
  · by_cases hserv : optTruthy (st.currentServing stepKey)
    · simp only [startNext, if_pos hk, if_pos hserv]
      exact h
    · cases hq : st.queues stepKey with
      | nil =>
        simp only [startNext, if_pos hk, if_neg hserv, hq]
        obtain ⟨h1, h2, h3, h4⟩ := h
        refine ⟨h1, ?_, ?_, ?_⟩
        · intro k hkk
          have hkne : k ≠ stepKey := fun he => hkk (he ▸ hk)
          exact ⟨(h2 k hkk).1, by dsimp only; rw [upd_ne _ _ _ hkne]; exact (h2 k hkk).2.1,
                 (h2 k hkk).2.2⟩
        · intro t stu hst
          obtain ⟨hb1, hb2, hb3⟩ := h3 t stu hst
          refine ⟨hb1, hb2, ?_⟩
          refine statusOk_congr ?_ ?_ ?_ hb3
          · intro k; rfl
          · intro k
            dsimp only
            by_cases hkk : k = stepKey
            · subst hkk
              rw [upd_same]
              constructor
              · intro he; exact Option.noConfusion he
              · intro he
                exact absurd he (inv_not_truthy_serving ⟨h1, h2, h3, h4⟩ hserv t
                  (ticketShape_ne_empty hb2))
            · rw [upd_ne _ _ _ hkk]
          · intro k; rfl
        · intro t hst
          refine nowhere_congr ?_ ?_ ?_ (h4 t hst)
          · intro k hm; exact hm
          · intro k he
            dsimp only at he
            by_cases hkk : k = stepKey
            · subst hkk; rw [upd_same] at he; exact Option.noConfusion he
            · rwa [upd_ne _ _ _ hkk] at he
          · intro k hm; exact hm
      | cons t0 rest =>
        have ht0mem : t0 ∈ st.queues stepKey := by
          rw [hq]; exact List.mem_cons_self _ _
        obtain ⟨stu, hstu, hstat, hkey⟩ := inv_mem_queue h ht0mem
        have ht0 : t0 ≠ "" := ticketShape_ne_empty ((h.2.2.1 t0 stu hstu).2.1)
        obtain ⟨h1, h2, h3, h4⟩ := h
        obtain ⟨hb1, hb2, hb3⟩ := h3 t0 stu hstu
        have hqat : QueuedAt st t0 stu.stepKey := by
          rcases hb3 with ⟨-, hl⟩ | ⟨hs, -⟩ | ⟨hs, -⟩ | ⟨hs, -⟩
          · exact hl
          · rw [hstat] at hs; exact absurd hs (by decide)
          · rw [hstat] at hs; exact absurd hs (by decide)
          · rw [hstat] at hs; exact absurd hs (by decide)
        rw [hkey] at hqat
        obtain ⟨-, hcount, hother, hns, hnh⟩ := hqat
        have ht0rest : t0 ∉ rest := by
          rw [hq, List.count_cons] at hcount
          simp at hcount
          exact List.count_eq_zero.mp hcount
        simp only [startNext, if_pos hk, if_neg hserv, hq, if_neg ht0, hstu]
        refine ⟨h1, ?_, ?_, ?_⟩
        · intro k hkk
          have hkne : k ≠ stepKey := fun he => hkk (he ▸ hk)
          refine ⟨?_, ?_, (h2 k hkk).2.2⟩
          · dsimp only; rw [upd_ne _ _ _ hkne]; exact (h2 k hkk).1
          · dsimp only; rw [upd_ne _ _ _ hkne]; exact (h2 k hkk).2.1
        · intro t stu' hst
          dsimp only at hst ⊢
          by_cases hteq : t = t0
          · subst hteq
            rw [upd_same] at hst
            cases hst
            refine ⟨hb1, hb2, ?_⟩
            refine Or.inr (Or.inl ⟨rfl, hk, by dsimp only; rw [upd_same], ?_, ?_, hnh⟩)
            · intro k hkk he
              dsimp only at he
              rw [upd_ne _ _ _ hkk] at he
              exact hns k he
            · intro k
              dsimp only
              by_cases hkk : k = stepKey
              · subst hkk; rw [upd_same]; exact ht0rest
              · rw [upd_ne _ _ _ hkk]; exact (fun hm => hother k hkk hm)
          · rw [upd_ne _ _ _ hteq] at hst
            obtain ⟨hc1, hc2, hc3⟩ := h3 t stu' hst
            refine ⟨hc1, hc2, ?_⟩
            refine statusOk_congr ?_ ?_ ?_ hc3
            · intro k
              dsimp only
              by_cases hkk : k = stepKey
              · subst hkk
                rw [upd_same, hq, List.count_cons]
                simp [show (t0 == t) = false by simp; exact fun he => hteq he.symm]
              · rw [upd_ne _ _ _ hkk]
            · intro k
              dsimp only
              by_cases hkk : k = stepKey
              · subst hkk
                rw [upd_same]
                constructor
                · intro he
                  cases he
                  exact absurd rfl hteq
                · intro he
                  exact absurd he (inv_not_truthy_serving ⟨h1, h2, h3, h4⟩ hserv t
                    (ticketShape_ne_empty hc2))
              · rw [upd_ne _ _ _ hkk]
            · intro k; rfl
        · intro t hst
          dsimp only at hst
          have hteq : t ≠ t0 := by
            intro he; subst he
            rw [upd_same] at hst
            exact Option.noConfusion hst
          rw [upd_ne _ _ _ hteq] at hst
          refine nowhere_congr ?_ ?_ ?_ (h4 t hst)
          · intro k hm
            dsimp only at hm
            by_cases hkk : k = stepKey
            · subst hkk
              rw [upd_same] at hm
              rw [hq]
              exact List.mem_cons_of_mem _ hm
            · rwa [upd_ne _ _ _ hkk] at hm
          · intro k he
            dsimp only at he
            by_cases hkk : k = stepKey
            · subst hkk
              rw [upd_same] at he
              cases he
              exact absurd rfl hteq
            · rwa [upd_ne _ _ _ hkk] at he
          · intro k hm
            exact hm
  · simp only [startNext, if_neg hk]
    exact h

theorem nextStepKey_mem {k k2 : String} (h : nextStepKey k = some k2) :
    k2 ∈ stepKeys := by
  unfold nextStepKey at h
  cases hidx : stepIndexByKey k with
  | none => rw [hidx] at h; exact Option.noConfusion h
  | some i => rw [hidx] at h; exact List.get?_mem h

/-- Distributing the conditional notes push over the record constructor. -/
theorem student_mk_note_if (c : Prop) [inst : Decidable c] (tk nm : String)
    (sid : Option String) (pr : String) (em db us cam itk : Option String)
    (sk stt : String) (hist : List HistEntry) (l1 l2 : List NoteEntry)
    (fo : List (String × FormObj)) (ca : String) :
    (if c then Student.mk tk nm sid pr em db us cam itk sk stt hist l1 fo ca
     else Student.mk tk nm sid pr em db us cam itk sk stt hist l2 fo ca) =
    Student.mk tk nm sid pr em db us cam itk sk stt hist (if c then l1 else l2) fo ca := by
  split <;> rfl

/-- `complete` preserves the invariant. -/
theorem inv_complete (h : Inv st) (ts stepKey : String) (staff noteB : Option String) :
    Inv (complete st ts stepKey staff noteB).2 := by
  by_cases hserv : optTruthy (st.currentServing stepKey)
  · cases hsv : st.currentServing stepKey with
    | none => rw [hsv] at hserv; exact absurd hserv (by simp [optTruthy])
    | some t0 =>
      obtain ⟨stu, hstu, hstat, hkey, hkmem, ht0⟩ := inv_serving h hsv
      obtain ⟨h1, h2, h3, h4⟩ := h
      obtain ⟨hb1, hb2, hb3⟩ := h3 t0 stu hstu
      have hsat : ServingAt st t0 stepKey := by
        rcases hb3 with ⟨hs, -⟩ | ⟨-, hl⟩ | ⟨hs, -⟩ | ⟨hs, -⟩
        · rw [hstat] at hs; exact absurd hs (by decide)
        · rwa [hkey] at hl
        · rw [hstat] at hs; exact absurd hs (by decide)
        · rw [hstat] at hs; exact absurd hs (by decide)
      obtain ⟨-, -, huniq, hnq, hnh⟩ := hsat
      have hot : optTruthy (some t0) = true := by rw [← hsv]; exact hserv
      cases hnxt : nextStepKey stepKey with
      | some k2 =>
        have hk2 : k2 ∈ stepKeys := nextStepKey_mem hnxt
        simp only [complete, hsv, hot, if_true, Option.getD_some, hstu,
          student_mk_note_if, hnxt]
        refine ⟨h1, ?_, ?_, ?_⟩
        · intro k hkk
          have hkne : k ≠ stepKey := fun he => hkk (he ▸ hkmem)
          have hkne2 : k ≠ k2 := fun he => hkk (he ▸ hk2)
          refine ⟨?_, ?_, (h2 k hkk).2.2⟩
          · dsimp only; rw [upd_ne _ _ _ hkne2]; exact (h2 k hkk).1
          · dsimp only; rw [upd_ne _ _ _ hkne]; exact (h2 k hkk).2.1
        · intro t stu' hst
          dsimp only at hst ⊢
          by_cases hteq : t = t0
          · subst hteq
            rw [upd_same] at hst
            cases hst
            refine ⟨hb1, hb2, ?_⟩
            refine Or.inl ⟨rfl, hk2, ?_, ?_, ?_, ?_⟩
            · dsimp only
              rw [upd_same, List.count_append, List.count_eq_zero.mpr (hnq k2)]
              simp
            · intro k hkk
              dsimp only
              rw [upd_ne _ _ _ hkk]
              exact hnq k
            · intro k
              dsimp only
              by_cases hkk : k = stepKey
              · subst hkk; rw [upd_same]; exact fun he => Option.noConfusion he
              · rw [upd_ne _ _ _ hkk]; exact huniq k hkk
            · exact hnh
          · rw [upd_ne _ _ _ hteq] at hst
            obtain ⟨hc1, hc2, hc3⟩ := h3 t stu' hst
            refine ⟨hc1, hc2, ?_⟩
            refine statusOk_congr ?_ ?_ ?_ hc3
            · intro k
              dsimp only
              by_cases hkk : k = k2
              · subst hkk
                rw [upd_same, List.count_append]
                simp [List.count_singleton]
                intro he
                exact absurd he.symm hteq
              · rw [upd_ne _ _ _ hkk]
            · intro k
              dsimp only
              by_cases hkk : k = stepKey
              · subst hkk
                rw [upd_same, hsv]
                constructor
                · intro he; exact Option.noConfusion he
                · intro he
                  cases he
                  exact absurd rfl hteq
              · rw [upd_ne _ _ _ hkk]
            · intro k; rfl
        · intro t hst
          dsimp only at hst
          have hteq : t ≠ t0 := by
            intro he; subst he
            rw [upd_same] at hst
            exact Option.noConfusion hst
          rw [upd_ne _ _ _ hteq] at hst
          refine nowhere_congr ?_ ?_ ?_ (h4 t hst)
          · intro k hm
            dsimp only at hm
            by_cases hkk : k = k2
            · subst hkk
              rw [upd_same] at hm
              rcases List.mem_append.mp hm with hm | hm
              · exact hm
              · simp at hm; exact absurd hm hteq
            · rwa [upd_ne _ _ _ hkk] at hm
          · intro k he
            dsimp only at he
            by_cases hkk : k = stepKey
            · subst hkk; rw [upd_same] at he; exact Option.noConfusion he
            · rwa [upd_ne _ _ _ hkk] at he
          · intro k hm
            exact hm
      | none =>
        simp only [complete, hsv, hot, if_true, Option.getD_some, hstu,
          student_mk_note_if, hnxt]
        refine ⟨h1, ?_, ?_, ?_⟩
        · intro k hkk
          have hkne : k ≠ stepKey := fun he => hkk (he ▸ hkmem)
          refine ⟨(h2 k hkk).1, ?_, (h2 k hkk).2.2⟩
          dsimp only; rw [upd_ne _ _ _ hkne]; exact (h2 k hkk).2.1
        · intro t stu' hst
          dsimp only at hst ⊢
          by_cases hteq : t = t0
          · subst hteq
            rw [upd_same] at hst
            cases hst
            refine ⟨hb1, hb2, ?_⟩
            refine Or.inr (Or.inr (Or.inr ⟨rfl, hnq, ?_, hnh⟩))
            intro k
            dsimp only
            by_cases hkk : k = stepKey
            · subst hkk; rw [upd_same]; exact fun he => Option.noConfusion he
            · rw [upd_ne _ _ _ hkk]; exact huniq k hkk
          · rw [upd_ne _ _ _ hteq] at hst
            obtain ⟨hc1, hc2, hc3⟩ := h3 t stu' hst
            refine ⟨hc1, hc2, ?_⟩
            refine statusOk_congr ?_ ?_ ?_ hc3
            · intro k; rfl
            · intro k
              dsimp only
              by_cases hkk : k = stepKey
              · subst hkk
                rw [upd_same, hsv]
                constructor
                · intro he; exact Option.noConfusion he
                · intro he
                  cases he
                  exact absurd rfl hteq
              · rw [upd_ne _ _ _ hkk]
            · intro k; rfl
        · intro t hst
          dsimp only at hst
          have hteq : t ≠ t0 := by
            intro he; subst he
            rw [upd_same] at hst
            exact Option.noConfusion hst
          rw [upd_ne _ _ _ hteq] at hst
          refine nowhere_congr ?_ ?_ ?_ (h4 t hst)
          · intro k hm; exact hm
          · intro k he
            dsimp only at he
            by_cases hkk : k = stepKey
            · subst hkk; rw [upd_same] at he; exact Option.noConfusion he
            · rwa [upd_ne _ _ _ hkk] at he
          · intro k hm; exact hm
  · simp only [complete, if_neg hserv]
    exact h

theorem setAdd_of_not_mem {l : List String} {x : String} (h : x ∉ l) :
    setAdd l x = l ++ [x] := by
  rw [setAdd, if_neg]
  simpa using h

/-- `hold` preserves the invariant. -/
theorem inv_hold (h : Inv st) (ts stepKey : String) (staff : Option String) :
    Inv (hold st ts stepKey staff).2 := by
  by_cases hserv : optTruthy (st.currentServing stepKey)
  · cases hsv : st.currentServing stepKey with
    | none => rw [hsv] at hserv; exact absurd hserv (by simp [optTruthy])
    | some t0 =>
      obtain ⟨stu, hstu, hstat, hkey, hkmem, ht0⟩ := inv_serving h hsv
      obtain ⟨h1, h2, h3, h4⟩ := h
      obtain ⟨hb1, hb2, hb3⟩ := h3 t0 stu hstu
      have hsat : ServingAt st t0 stepKey := by
        rcases hb3 with ⟨hs, -⟩ | ⟨-, hl⟩ | ⟨hs, -⟩ | ⟨hs, -⟩
        · rw [hstat] at hs; exact absurd hs (by decide)
        · rwa [hkey] at hl
        · rw [hstat] at hs; exact absurd hs (by decide)
        · rw [hstat] at hs; exact absurd hs (by decide)
      obtain ⟨-, -, huniq, hnq, hnh⟩ := hsat
      have hot : optTruthy (some t0) = true := by rw [← hsv]; exact hserv
      simp only [hold, hsv, hot, if_true, Option.getD_some, hstu, if_pos hkmem]
      refine ⟨h1, ?_, ?_, ?_⟩
      · intro k hkk
        have hkne : k ≠ stepKey := fun he => hkk (he ▸ hkmem)
        refine ⟨(h2 k hkk).1, ?_, ?_⟩
        · dsimp only; rw [upd_ne _ _ _ hkne]; exact (h2 k hkk).2.1
        · dsimp only; rw [upd_ne _ _ _ hkne]; exact (h2 k hkk).2.2
      · intro t stu' hst
        dsimp only at hst ⊢
        by_cases hteq : t = t0
        · subst hteq
          rw [upd_same] at hst
          cases hst
          refine ⟨hb1, hb2, ?_⟩
          unfold StatusOk
          dsimp only
          rw [hkey]
          refine Or.inr (Or.inr (Or.inl ⟨rfl, hkmem, ?_, ?_, hnq, ?_⟩))
          · dsimp only
            rw [upd_same, setAdd_of_not_mem (hnh stepKey), List.count_append,
              List.count_eq_zero.mpr (hnh stepKey)]
            simp
          · intro k hkk
            dsimp only
            rw [upd_ne _ _ _ hkk]
            exact hnh k
          · intro k
            dsimp only
            by_cases hkk : k = stepKey
            · subst hkk; rw [upd_same]; exact fun he => Option.noConfusion he
            · rw [upd_ne _ _ _ hkk]; exact huniq k hkk
        · rw [upd_ne _ _ _ hteq] at hst
          obtain ⟨hc1, hc2, hc3⟩ := h3 t stu' hst
          refine ⟨hc1, hc2, ?_⟩
          refine statusOk_congr ?_ ?_ ?_ hc3
          · intro k; rfl
          · intro k
            dsimp only
            by_cases hkk : k = stepKey
            · subst hkk
              rw [upd_same, hsv]
              constructor
              · intro he; exact Option.noConfusion he
              · intro he; cases he; exact absurd rfl hteq
            · rw [upd_ne _ _ _ hkk]
          · intro k
            dsimp only
            by_cases hkk : k = stepKey
            · subst hkk
              rw [upd_same, setAdd_of_not_mem (hnh _), List.count_append]
              simp [List.count_singleton]
              intro he
              exact absurd he.symm hteq
            · rw [upd_ne _ _ _ hkk]
      · intro t hst
        dsimp only at hst
        have hteq : t ≠ t0 := by
          intro he; subst he
          rw [upd_same] at hst
          exact Option.noConfusion hst
        rw [upd_ne _ _ _ hteq] at hst
        refine nowhere_congr ?_ ?_ ?_ (h4 t hst)
        · intro k hm; exact hm
        · intro k he
          dsimp only at he
          by_cases hkk : k = stepKey
          · subst hkk; rw [upd_same] at he; exact Option.noConfusion he
          · rwa [upd_ne _ _ _ hkk] at he
        · intro k hm
          dsimp only at hm
          by_cases hkk : k = stepKey
          · subst hkk
            rw [upd_same, setAdd_of_not_mem (hnh _)] at hm
            rcases List.mem_append.mp hm with hm | hm
            · exact hm
            · simp at hm; exact absurd hm hteq
          · rwa [upd_ne _ _ _ hkk] at hm
  · simp only [hold, if_neg hserv]
    exact h

/-- `ret` preserves the invariant. -/
theorem inv_ret (h : Inv st) (ts stepKey ticket : String) (staff : Option String) :
    Inv (ret st ts stepKey ticket staff).2 := by
  by_cases hk : stepKey ∈ stepKeys
  · by_cases hmem : (st.holds stepKey).contains ticket
    · have hmem' : ticket ∈ st.holds stepKey := by simpa using hmem
      obtain ⟨stu, hstu, hstat, hkey⟩ := inv_mem_holds h hmem'
      obtain ⟨h1, h2, h3, h4⟩ := h
      obtain ⟨hb1, hb2, hb3⟩ := h3 ticket stu hstu
      have hsat : HeldAt st ticket stepKey := by
        rcases hb3 with ⟨hs, -⟩ | ⟨hs, -⟩ | ⟨-, hl⟩ | ⟨hs, -⟩
        · rw [hstat] at hs; exact absurd hs (by decide)
        · rw [hstat] at hs; exact absurd hs (by decide)
        · rwa [hkey] at hl
        · rw [hstat] at hs; exact absurd hs (by decide)
      obtain ⟨-, -, hother, hnq, hns⟩ := hsat
      simp only [ret, if_pos hk, if_pos hmem, hstu]
      refine ⟨h1, ?_, ?_, ?_⟩
      · intro k hkk
        have hkne : k ≠ stepKey := fun he => hkk (he ▸ hk)
        refine ⟨?_, (h2 k hkk).2.1, ?_⟩
        · dsimp only; rw [upd_ne _ _ _ hkne]; exact (h2 k hkk).1
        · dsimp only; rw [upd_ne _ _ _ hkne]; exact (h2 k hkk).2.2
      · intro t stu' hst
        dsimp only at hst ⊢
        by_cases hteq : t = ticket
        · subst hteq
          rw [upd_same] at hst
          cases hst
          refine ⟨hb1, hb2, ?_⟩
          unfold StatusOk
          dsimp only
          rw [hkey]
          refine Or.inl ⟨rfl, hk, ?_, ?_, hns, ?_⟩
          · dsimp only
            rw [upd_same, List.count_append, List.count_eq_zero.mpr (hnq stepKey)]
            simp
          · intro k hkk
            dsimp only
            rw [upd_ne _ _ _ hkk]
            exact hnq k
          · intro k
            dsimp only
            by_cases hkk : k = stepKey
            · subst hkk
              rw [upd_same]
              intro hm
              have := List.mem_filter.mp hm
              simp at this
            · rw [upd_ne _ _ _ hkk]; exact hother k hkk
        · rw [upd_ne _ _ _ hteq] at hst
          obtain ⟨hc1, hc2, hc3⟩ := h3 t stu' hst
          refine ⟨hc1, hc2, ?_⟩
          refine statusOk_congr ?_ ?_ ?_ hc3
          · intro k
            dsimp only
            by_cases hkk : k = stepKey
            · subst hkk
              rw [upd_same, List.count_append]
              simp [List.count_singleton]
              intro he
              exact absurd he.symm hteq
            · rw [upd_ne _ _ _ hkk]
          · intro k; rfl
          · intro k
            dsimp only
            by_cases hkk : k = stepKey
            · subst hkk
              rw [upd_same, setDel, List.count_filter (by simpa using hteq)]
            · rw [upd_ne _ _ _ hkk]
      · intro t hst
        dsimp only at hst
        have hteq : t ≠ ticket := by
          intro he; subst he
          rw [upd_same] at hst
          exact Option.noConfusion hst
        rw [upd_ne _ _ _ hteq] at hst
        refine nowhere_congr ?_ ?_ ?_ (h4 t hst)
        · intro k hm
          dsimp only at hm
          by_cases hkk : k = stepKey
          · subst hkk
            rw [upd_same] at hm
            rcases List.mem_append.mp hm with hm | hm
            · exact hm
            · simp at hm; exact absurd hm hteq
          · rwa [upd_ne _ _ _ hkk] at hm
        · intro k he; exact he
        · intro k hm
          dsimp only at hm
          by_cases hkk : k = stepKey
          · subst hkk
            rw [upd_same] at hm
            exact (List.mem_filter.mp hm).1
          · rwa [upd_ne _ _ _ hkk] at hm
    · simp only [ret, if_pos hk, if_neg hmem]
      exact h
  · simp only [ret, if_neg hk]
    exact h

/-- `skip` preserves the invariant. -/
theorem inv_skip (h : Inv st) (ts stepKey : String) (staff : Option String) :
    Inv (skip st ts stepKey staff).2 := by
  by_cases hserv : optTruthy (st.currentServing stepKey)
  · cases hsv : st.currentServing stepKey with
    | none => rw [hsv] at hserv; exact absurd hserv (by simp [optTruthy])
    | some t0 =>
      obtain ⟨stu, hstu, hstat, hkey, hkmem, ht0⟩ := inv_serving h hsv
      obtain ⟨h1, h2, h3, h4⟩ := h
      obtain ⟨hb1, hb2, hb3⟩ := h3 t0 stu hstu
      have hsat : ServingAt st t0 stepKey := by
        rcases hb3 with ⟨hs, -⟩ | ⟨-, hl⟩ | ⟨hs, -⟩ | ⟨hs, -⟩
        · rw [hstat] at hs; exact absurd hs (by decide)
        · rwa [hkey] at hl
        · rw [hstat] at hs; exact absurd hs (by decide)
        · rw [hstat] at hs; exact absurd hs (by decide)
      obtain ⟨-, -, huniq, hnq, hnh⟩ := hsat
      have hot : optTruthy (some t0) = true := by rw [← hsv]; exact hserv
      simp only [skip, hsv, hot, if_true, Option.getD_some, hstu, if_pos hkmem]
      refine ⟨h1, ?_, ?_, ?_⟩
      · intro k hkk
        have hkne : k ≠ stepKey := fun he => hkk (he ▸ hkmem)
        refine ⟨?_, ?_, (h2 k hkk).2.2⟩
        · dsimp only; rw [upd_ne _ _ _ hkne]; exact (h2 k hkk).1
        · dsimp only; rw [upd_ne _ _ _ hkne]; exact (h2 k hkk).2.1
      · intro t stu' hst
        dsimp only at hst ⊢
        by_cases hteq : t = t0
        · subst hteq
          rw [upd_same] at hst
          cases hst
          refine ⟨hb1, hb2, ?_⟩
          unfold StatusOk
          dsimp only
          rw [hkey]
          refine Or.inl ⟨rfl, hkmem, ?_, ?_, ?_, hnh⟩
          · dsimp only
            rw [upd_same, List.count_append, List.count_eq_zero.mpr (hnq stepKey)]
            simp
          · intro k hkk
            dsimp only
            rw [upd_ne _ _ _ hkk]
            exact hnq k
          · intro k
            dsimp only
            by_cases hkk : k = stepKey
            · subst hkk; rw [upd_same]; exact fun he => Option.noConfusion he
            · rw [upd_ne _ _ _ hkk]; exact huniq k hkk
        · rw [upd_ne _ _ _ hteq] at hst
          obtain ⟨hc1, hc2, hc3⟩ := h3 t stu' hst
          refine ⟨hc1, hc2, ?_⟩
          refine statusOk_congr ?_ ?_ ?_ hc3
          · intro k
            dsimp only
            by_cases hkk : k = stepKey
            · subst hkk
              rw [upd_same, List.count_append]
              simp [List.count_singleton]
              intro he
              exact absurd he.symm hteq
            · rw [upd_ne _ _ _ hkk]
          · intro k
            dsimp only
            by_cases hkk : k = stepKey
            · subst hkk
              rw [upd_same, hsv]
              constructor
              · intro he; exact Option.noConfusion he
              · intro he; cases he; exact absurd rfl hteq
            · rw [upd_ne _ _ _ hkk]
          · intro k; rfl
      · intro t hst
        dsimp only at hst
        have hteq : t ≠ t0 := by
          intro he; subst he
          rw [upd_same] at hst
          exact Option.noConfusion hst
        rw [upd_ne _ _ _ hteq] at hst
        refine nowhere_congr ?_ ?_ ?_ (h4 t hst)
        · intro k hm
          dsimp only at hm
          by_cases hkk : k = stepKey
          · subst hkk
            rw [upd_same] at hm
            rcases List.mem_append.mp hm with hm | hm
            · exact hm
            · simp at hm; exact absurd hm hteq
          · rwa [upd_ne _ _ _ hkk] at hm
        · intro k he
          dsimp only at he
          by_cases hkk : k = stepKey
          · subst hkk; rw [upd_same] at he; exact Option.noConfusion he
          · rwa [upd_ne _ _ _ hkk] at he
        · intro k hm; exact hm
  · simp only [skip, if_neg hserv]
    exact h

/-- `addNote` preserves the invariant. -/
theorem inv_addNote (h : Inv st) (ts stepKey : String)
    (text staff ticket : Option String) :
    Inv (addNote st ts stepKey text staff ticket).2 := by
  by_cases htxt : ¬ optTruthy text ∨ jsTrim (text.getD "") = ""
  · simp only [addNote, if_pos htxt]
    exact h
  · by_cases htr : optTruthy (if optTruthy ticket then ticket else st.currentServing stepKey)
    · cases hstu : st.students ((if optTruthy ticket then ticket
        else st.currentServing stepKey).getD "") with
      | none =>
        simp only [addNote, if_neg htxt, if_pos htr, hstu]
        exact h
      | some stu =>
        obtain ⟨h1, h2, h3, h4⟩ := h
        set t0 := (if optTruthy ticket then ticket else st.currentServing stepKey).getD ""
          with ht0def
        obtain ⟨hb1, hb2, hb3⟩ := h3 t0 stu hstu
        simp only [addNote, if_neg htxt, if_pos htr, hstu]
        refine ⟨h1, ?_, ?_, ?_⟩
        · intro k hkk
          exact h2 k hkk
        · intro t stu' hst
          dsimp only at hst ⊢
          by_cases hteq : t = t0
          · subst hteq
            rw [upd_same] at hst
            cases hst
            exact ⟨hb1, hb2, hb3⟩
          · rw [upd_ne _ _ _ hteq] at hst
            exact h3 t stu' hst
        · intro t hst
          dsimp only at hst
          have hteq : t ≠ t0 := by
            intro he; subst he
            rw [upd_same] at hst
            exact Option.noConfusion hst
          rw [upd_ne _ _ _ hteq] at hst
          exact h4 t hst
    · simp only [addNote, if_neg htxt, if_neg htr]
      exact h

theorem syncReg_status (s : Student) (inc : FormObj) :
    (syncReg s inc).status = s.status := by
  simp [syncReg, apply_ite Student.status]

theorem syncReg_stepKey (s : Student) (inc : FormObj) :
    (syncReg s inc).stepKey = s.stepKey := by
  simp [syncReg, apply_ite Student.stepKey]

theorem syncReg_ticket (s : Student) (inc : FormObj) :
    (syncReg s inc).ticket = s.ticket := by
  simp [syncReg, apply_ite Student.ticket]

/-- `formSave` preserves the invariant. -/
theorem inv_formSave (h : Inv st) (ts stepKey : String) (staff : Option String)
    (data : Option Obj) (ticket : Option String) :
    Inv (formSave st ts stepKey staff data ticket).2 := by
  by_cases htr : optTruthy (if optTruthy ticket then ticket else st.currentServing stepKey)
  · cases hstu : st.students ((if optTruthy ticket then ticket
      else st.currentServing stepKey).getD "") with
    | none =>
      simp only [formSave, if_pos htr, hstu]
      exact h
    | some stu =>
      cases hsch : FORM_SCHEMAS stepKey with
      | none =>
        simp only [formSave, if_pos htr, hstu, hsch]
        exact h
      | some schema =>
        obtain ⟨h1, h2, h3, h4⟩ := h
        set t0 := (if optTruthy ticket then ticket else st.currentServing stepKey).getD ""
          with ht0def
        obtain ⟨hb1, hb2, hb3⟩ := h3 t0 stu hstu
        simp only [formSave, if_pos htr, hstu, hsch]
        refine ⟨h1, ?_, ?_, ?_⟩
        · intro k hkk
          exact h2 k hkk
        · intro t stu' hst
          dsimp only at hst ⊢
          by_cases hteq : t = t0
          · subst hteq
            rw [upd_same] at hst
            cases hst
            refine ⟨?_, hb2, ?_⟩
            · dsimp only
              rw [apply_ite Student.ticket, syncReg_ticket, ite_self]
              exact hb1
            · show StatusOk _ t0 _
              unfold StatusOk
              dsimp only
              rw [apply_ite Student.status, syncReg_status, ite_self,
                apply_ite Student.stepKey, syncReg_stepKey, ite_self]
              exact hb3
          · rw [upd_ne _ _ _ hteq] at hst
            exact h3 t stu' hst
        · intro t hst
          dsimp only at hst
          have hteq : t ≠ t0 := by
            intro he; subst he
            rw [upd_same] at hst
            exact Option.noConfusion hst
          rw [upd_ne _ _ _ hteq] at hst
          exact h4 t hst
  · simp only [formSave, if_neg htr]
    exact h

/-- Every single API request preserves the invariant. -/
theorem inv_applyOp (h : Inv st) (op : Op) : Inv (applyOp st op) := by
  cases op with
  | checkin ts n sid p e sf => exact inv_checkin h ts n sid p e sf
  | startNext ts k sf => exact inv_startNext h ts k sf
  | formSave ts k sf d t => exact inv_formSave h ts k sf d t
  | complete ts k sf nt => exact inv_complete h ts k sf nt
  | hold ts k sf => exact inv_hold h ts k sf
  | ret ts k t sf => exact inv_ret h ts k t sf
  | skip ts k sf => exact inv_skip h ts k sf
  | addNote ts k tx sf t => exact inv_addNote h ts k tx sf t

/-- Any sequence of requests preserves the invariant. -/
theorem inv_run (h : Inv st) (ops : List Op) : Inv (run st ops) := by
  induction ops generalizing st with
  | nil => exact h
  | cons op ops ih => exact ih (inv_applyOp h op)

theorem stepKeys_nodup : stepKeys.Nodup := by decide

theorem sum_map_eq_single {l : List String} (hnd : l.Nodup) {k0 : String}
    (hk0 : k0 ∈ l) (f : String → Nat) (h1 : ∀ k, k ≠ k0 → f k = 0) :
    (l.map f).sum = f k0 := by
  induction l with
  | nil => cases hk0
  | cons a l ih =>
    by_cases ha : a = k0
    · subst ha
      have hz : (l.map f).sum = 0 := by
        apply List.sum_eq_zero
        intro x hx
        obtain ⟨k, hk, rfl⟩ := List.mem_map.mp hx
        exact h1 k (fun he => (List.nodup_cons.mp hnd).1 (he ▸ hk))
      simp [hz]
    · have hk0' : k0 ∈ l := by
        rcases List.mem_cons.mp hk0 with he | hm
        · exact absurd he.symm ha
        · exact hm
      have := ih (List.nodup_cons.mp hnd).2 hk0'
      simp [this, h1 a ha]

theorem sum_map_eq_zero {l : List String} (f : String → Nat)
    (h1 : ∀ k, f k = 0) : (l.map f).sum = 0 := by
  apply List.sum_eq_zero
  intro x hx
  obtain ⟨k, _, rfl⟩ := List.mem_map.mp hx
  exact h1 k

/-- Under the invariant, a recorded ticket occurs at most once overall, and
occurs nowhere exactly when its status is `"complete"`. -/
theorem inv_occurrences (h : Inv st) (t : String) (stu : Student)
    (hst : st.students t = some stu) :
    occurrences st t ≤ 1 ∧ (occurrences st t = 0 ↔ stu.status = "complete") := by
  obtain ⟨-, -, h3, -⟩ := h
  rcases (h3 t stu hst).2.2 with ⟨hs, hk, hc, ho, hns, hnh⟩ | ⟨hs, hk, hc, ho, hnq, hnh⟩ |
    ⟨hs, hk, hc, ho, hnq, hns⟩ | ⟨hs, hnq, hns, hnh⟩
  · have e1 : (stepKeys.map (fun k => (st.queues k).count t)).sum = 1 := by
      rw [sum_map_eq_single stepKeys_nodup hk _
        (fun k hkk => List.count_eq_zero.mpr (ho k hkk))]
      exact hc
    have e2 : (stepKeys.map (fun k => if st.currentServing k = some t then 1 else 0)).sum = 0 :=
      sum_map_eq_zero _ (fun k => by simp [hns k])
    have e3 : (stepKeys.map (fun k => (st.holds k).count t)).sum = 0 :=
      sum_map_eq_zero _ (fun k => List.count_eq_zero.mpr (hnh k))
    rw [occurrences, e1, e2, e3]
    refine ⟨by omega, ?_⟩
    rw [hs]
    constructor
    · intro hcon; omega
    · intro hcon; exact absurd hcon (by decide)
  · have e1 : (stepKeys.map (fun k => (st.queues k).count t)).sum = 0 :=
      sum_map_eq_zero _ (fun k => List.count_eq_zero.mpr (hnq k))
    have e2 : (stepKeys.map (fun k => if st.currentServing k = some t then 1 else 0)).sum = 1 := by
      rw [sum_map_eq_single stepKeys_nodup hk _ (fun k hkk => by simp [ho k hkk])]
      simp [hc]
    have e3 : (stepKeys.map (fun k => (st.holds k).count t)).sum = 0 :=
      sum_map_eq_zero _ (fun k => List.count_eq_zero.mpr (hnh k))
    rw [occurrences, e1, e2, e3]
    refine ⟨by omega, ?_⟩
    rw [hs]
    constructor
    · intro hcon; omega
    · intro hcon; exact absurd hcon (by decide)
  · have e1 : (stepKeys.map (fun k => (st.queues k).count t)).sum = 0 :=
      sum_map_eq_zero _ (fun k => List.count_eq_zero.mpr (hnq k))
    have e2 : (stepKeys.map (fun k => if st.currentServing k = some t then 1 else 0)).sum = 0 :=
      sum_map_eq_zero _ (fun k => by simp [hns k])
    have e3 : (stepKeys.map (fun k => (st.holds k).count t)).sum = 1 := by
      rw [sum_map_eq_single stepKeys_nodup hk _
        (fun k hkk => List.count_eq_zero.mpr (ho k hkk))]
      exact hc
    rw [occurrences, e1, e2, e3]
    refine ⟨by omega, ?_⟩
    rw [hs]
    constructor
    · intro hcon; omega
    · intro hcon; exact absurd hcon (by decide)
  · have e1 : (stepKeys.map (fun k => (st.queues k).count t)).sum = 0 :=
      sum_map_eq_zero _ (fun k => List.count_eq_zero.mpr (hnq k))
    have e2 : (stepKeys.map (fun k => if st.currentServing k = some t then 1 else 0)).sum = 0 :=
      sum_map_eq_zero _ (fun k => by simp [hns k])
    have e3 : (stepKeys.map (fun k => (st.holds k).count t)).sum = 0 :=
      sum_map_eq_zero _ (fun k => List.count_eq_zero.mpr (hnh k))
    rw [occurrences, e1, e2, e3]
    exact ⟨by omega, by simp [hs]⟩

/-- The next ticket the counter would produce has no record yet. -/
theorem fresh_ticket (h : Inv st) :
    st.students ("A" ++ Nat.repr (st.seq + 1)) = none := by
  cases hst : st.students ("A" ++ Nat.repr (st.seq + 1)) with
  | none => rfl
  | some stu =>
    obtain ⟨m, hm1, hm2, hm3⟩ := (h.2.2.1 _ stu hst).2.1
    have := ticket_inj hm3.symm
    omega

/-- One request never disturbs a completed student's record: it stays present
with status `"complete"`. -/
theorem complete_stays_op (h : Inv st) {t : String} {stu : Student}
    (hst : st.students t = some stu) (hc : stu.status = "complete") (op : Op) :
    ∃ stu', (applyOp st op).students t = some stu' ∧ stu'.status = "complete" := by
  cases op with
  | checkin ts name studentId program email staff =>
    show ∃ stu', (checkin st ts name studentId program email staff).2.students t = some stu' ∧ _
    match name, program with
    | none, _ => exact ⟨stu, hst, hc⟩
    | some n, none => exact ⟨stu, hst, hc⟩
    | some n, some p =>
      by_cases hemp : n = "" ∨ p = ""
      · simp only [checkin, if_pos hemp]
        exact ⟨stu, hst, hc⟩
      · simp only [checkin, if_neg hemp, makeTicketId,
          show firstStep.pfx = "A" from rfl]
        have hne : t ≠ "A" ++ Nat.repr (st.seq + 1) := by
          intro he
          rw [he, fresh_ticket h] at hst
          exact Option.noConfusion hst
        refine ⟨stu, ?_, hc⟩
        dsimp only
        rw [upd_ne _ _ _ hne]
        exact hst
  | startNext ts stepKey staff =>
    show ∃ stu', (startNext st ts stepKey staff).2.students t = some stu' ∧ _
    by_cases hk : stepKey ∈ stepKeys
    · by_cases hserv : optTruthy (st.currentServing stepKey)
      · simp only [startNext, if_pos hk, if_pos hserv]
        exact ⟨stu, hst, hc⟩
      · cases hq : st.queues stepKey with
        | nil =>
          simp only [startNext, if_pos hk, if_neg hserv, hq]
          exact ⟨stu, hst, hc⟩
        | cons t0 rest =>
          by_cases ht0 : t0 = ""
          · simp only [startNext, if_pos hk, if_neg hserv, hq, if_pos ht0]
            exact ⟨stu, hst, hc⟩
          · obtain ⟨stu0, hstu0, hstat0, -⟩ := inv_mem_queue h
              (show t0 ∈ st.queues stepKey by rw [hq]; exact List.mem_cons_self _ _)
            have hne : t ≠ t0 := by
              intro he
              subst he
              rw [hst] at hstu0
              cases hstu0
              rw [hc] at hstat0
              exact absurd hstat0 (by decide)
            simp only [startNext, if_pos hk, if_neg hserv, hq, if_neg ht0, hstu0]
            refine ⟨stu, ?_, hc⟩
            dsimp only
            rw [upd_ne _ _ _ hne]
            exact hst
    · simp only [startNext, if_neg hk]
      exact ⟨stu, hst, hc⟩
  | formSave ts stepKey staff data ticket =>
    show ∃ stu', (formSave st ts stepKey staff data ticket).2.students t = some stu' ∧ _
    by_cases htr : optTruthy (if optTruthy ticket then ticket else st.currentServing stepKey)
    · cases hstu0 : st.students ((if optTruthy ticket then ticket
        else st.currentServing stepKey).getD "") with
      | none =>
        simp only [formSave, if_pos htr, hstu0]
        exact ⟨stu, hst, hc⟩
      | some stu0 =>
        cases hsch : FORM_SCHEMAS stepKey with
        | none =>
          simp only [formSave, if_pos htr, hstu0, hsch]
          exact ⟨stu, hst, hc⟩
        | some schema =>
          simp only [formSave, if_pos htr, hstu0, hsch]
          by_cases hteq : t = (if optTruthy ticket then ticket
            else st.currentServing stepKey).getD ""
          · rw [← hteq, hst] at hstu0
            cases hstu0
            refine ⟨_, by rw [hteq]; exact upd_same _ _ _, ?_⟩
            dsimp only
            rw [apply_ite Student.status, syncReg_status, ite_self]
            exact hc
          · refine ⟨stu, ?_, hc⟩
            dsimp only
            rw [upd_ne _ _ _ hteq]
            exact hst
    · simp only [formSave, if_neg htr]
      exact ⟨stu, hst, hc⟩
  | complete ts stepKey staff noteB =>
    show ∃ stu', (complete st ts stepKey staff noteB).2.students t = some stu' ∧ _
    by_cases hserv : optTruthy (st.currentServing stepKey)
    · cases hsv : st.currentServing stepKey with
      | none => rw [hsv] at hserv; exact absurd hserv (by simp [optTruthy])
      | some t0 =>
        obtain ⟨stu0, hstu0, hstat0, -, -, -⟩ := inv_serving h hsv
        have hot : optTruthy (some t0) = true := by rw [← hsv]; exact hserv
        have hne : t ≠ t0 := by
          intro he
          subst he
          rw [hst] at hstu0
          cases hstu0
          rw [hc] at hstat0
          exact absurd hstat0 (by decide)
        cases hnxt : nextStepKey stepKey with
        | some k2 =>
          simp only [complete, hsv, hot, if_true, Option.getD_some, hstu0,
            student_mk_note_if, hnxt]
          refine ⟨stu, ?_, hc⟩
          dsimp only
          rw [upd_ne _ _ _ hne]
          exact hst
        | none =>
          simp only [complete, hsv, hot, if_true, Option.getD_some, hstu0,
            student_mk_note_if, hnxt]
          refine ⟨stu, ?_, hc⟩
          dsimp only
          rw [upd_ne _ _ _ hne]
          exact hst
    · simp only [complete, if_neg hserv]
      exact ⟨stu, hst, hc⟩
  | hold ts stepKey staff =>
    show ∃ stu', (hold st ts stepKey staff).2.students t = some stu' ∧ _
    by_cases hserv : optTruthy (st.currentServing stepKey)
    · cases hsv : st.currentServing stepKey with
      | none => rw [hsv] at hserv; exact absurd hserv (by simp [optTruthy])
      | some t0 =>
        obtain ⟨stu0, hstu0, hstat0, -, hkmem, -⟩ := inv_serving h hsv
        have hot : optTruthy (some t0) = true := by rw [← hsv]; exact hserv
        have hne : t ≠ t0 := by
          intro he
          subst he
          rw [hst] at hstu0
          cases hstu0
          rw [hc] at hstat0
          exact absurd hstat0 (by decide)
        simp only [hold, hsv, hot, if_true, Option.getD_some, hstu0, if_pos hkmem]
        refine ⟨stu, ?_, hc⟩
        dsimp only
        rw [upd_ne _ _ _ hne]
        exact hst
    · simp only [hold, if_neg hserv]
      exact ⟨stu, hst, hc⟩
  | ret ts stepKey ticket staff =>
    show ∃ stu', (ret st ts stepKey ticket staff).2.students t = some stu' ∧ _
    by_cases hk : stepKey ∈ stepKeys
    · by_cases hmem : (st.holds stepKey).contains ticket
      · obtain ⟨stu0, hstu0, hstat0, -⟩ := inv_mem_holds h
          (show ticket ∈ st.holds stepKey by simpa using hmem)
        have hne : t ≠ ticket := by
          intro he
          subst he
          rw [hst] at hstu0
          cases hstu0
          rw [hc] at hstat0
          exact absurd hstat0 (by decide)
        simp only [ret, if_pos hk, if_pos hmem, hstu0]
        refine ⟨stu, ?_, hc⟩
        dsimp only
        rw [upd_ne _ _ _ hne]
        exact hst
      · simp only [ret, if_pos hk, if_neg hmem]
        exact ⟨stu, hst, hc⟩
    · simp only [ret, if_neg hk]
      exact ⟨stu, hst, hc⟩
  | skip ts stepKey staff =>
    show ∃ stu', (skip st ts stepKey staff).2.students t = some stu' ∧ _
    by_cases hserv : optTruthy (st.currentServing stepKey)
    · cases hsv : st.currentServing stepKey with
      | none => rw [hsv] at hserv; exact absurd hserv (by simp [optTruthy])
      | some t0 =>
        obtain ⟨stu0, hstu0, hstat0, -, hkmem, -⟩ := inv_serving h hsv
        have hot : optTruthy (some t0) = true := by rw [← hsv]; exact hserv
        have hne : t ≠ t0 := by
          intro he
          subst he
          rw [hst] at hstu0
          cases hstu0
          rw [hc] at hstat0
          exact absurd hstat0 (by decide)
        simp only [skip, hsv, hot, if_true, Option.getD_some, hstu0, if_pos hkmem]
        refine ⟨stu, ?_, hc⟩
        dsimp only
        rw [upd_ne _ _ _ hne]
        exact hst
    · simp only [skip, if_neg hserv]
      exact ⟨stu, hst, hc⟩
  | addNote ts stepKey text staff ticket =>
    show ∃ stu', (addNote st ts stepKey text staff ticket).2.students t = some stu' ∧ _
    by_cases htxt : ¬ optTruthy text ∨ jsTrim (text.getD "") = ""
    · simp only [addNote, if_pos htxt]
      exact ⟨stu, hst, hc⟩
    · by_cases htr : optTruthy (if optTruthy ticket then ticket else st.currentServing stepKey)
      · cases hstu0 : st.students ((if optTruthy ticket then ticket
          else st.currentServing stepKey).getD "") with
        | none =>
          simp only [addNote, if_neg htxt, if_pos htr, hstu0]
          exact ⟨stu, hst, hc⟩
        | some stu0 =>
          simp only [addNote, if_neg htxt, if_pos htr, hstu0]
          by_cases hteq : t = (if optTruthy ticket then ticket
            else st.currentServing stepKey).getD ""
          · rw [← hteq, hst] at hstu0
            cases hstu0
            refine ⟨{ stu with notes := stu.notes ++
              [(⟨stepKey, jsTrim (text.getD ""), normOpt staff, ts⟩ : NoteEntry)] }, ?_, hc⟩
            rw [hteq]
            exact upd_same _ _ _
          · refine ⟨stu, ?_, hc⟩
            dsimp only
            rw [upd_ne _ _ _ hteq]
            exact hst
      · simp only [addNote, if_neg htxt, if_neg htr]
        exact ⟨stu, hst, hc⟩

/-- Over any run of requests, a completed student's record stays present and
completed. -/
theorem complete_stays_run (h : Inv st) {t : String} {stu : Student}
    (hst : st.students t = some stu) (hc : stu.status = "complete")
    (ops : List Op) :
    ∃ stu', (run st ops).students t = some stu' ∧ stu'.status = "complete" := by
  induction ops generalizing st stu with
  | nil => exact ⟨stu, hst, hc⟩
  | cons op ops ih =>
    obtain ⟨stu', hst', hc'⟩ := complete_stays_op h hst hc op
    exact ih (inv_applyOp h op) hst' hc'

/-- Under the invariant, a record in status `"complete"` is nowhere. -/
theorem inv_complete_nowhere (h : Inv st) {t : String} {stu : Student}
    (hst : st.students t = some stu) (hc : stu.status = "complete") :
    Nowhere st t := by
  rcases (h.2.2.1 t stu hst).2.2 with ⟨hs, -⟩ | ⟨hs, -⟩ | ⟨hs, -⟩ | ⟨-, hn⟩
  · rw [hc] at hs; exact absurd hs (by decide)
  · rw [hc] at hs; exact absurd hs (by decide)
  · rw [hc] at hs; exact absurd hs (by decide)
  · exact hn

theorem precedesB_append {l : List String} {a b : String} (x : String)
    (h : precedesB l a b = true) : precedesB (l ++ [x]) a b = true := by
  induction l with
  | nil => simp [precedesB] at h
  | cons y ys ih =>
    rw [precedesB] at h
    rcases Bool.or_eq_true_iff.mp h with h1 | h2
    · have hy : y = a := by
        have := Bool.and_eq_true_iff.mp h1
        exact of_decide_eq_true this.1
      have hb : b ∈ ys := by
        have := Bool.and_eq_true_iff.mp h1
        exact of_decide_eq_true this.2
      show precedesB (y :: (ys ++ [x])) a b = true
      rw [precedesB]
      apply Bool.or_eq_true_iff.mpr
      left
      rw [Bool.and_eq_true_iff]
      exact ⟨decide_eq_true hy, decide_eq_true (List.mem_append.mpr (Or.inl hb))⟩
    · show precedesB (y :: (ys ++ [x])) a b = true
      rw [precedesB]
      apply Bool.or_eq_true_iff.mpr
      right
      exact ih h2

theorem precedesB_mem_right {l : List String} {a b : String}
    (h : precedesB l a b = true) : b ∈ l := by
  induction l with
  | nil => simp [precedesB] at h
  | cons y ys ih =>
    rw [precedesB] at h
    rcases Bool.or_eq_true_iff.mp h with h1 | h2
    · have hb : b ∈ ys := of_decide_eq_true (Bool.and_eq_true_iff.mp h1).2
      exact List.mem_cons_of_mem _ hb
    · exact List.mem_cons_of_mem _ (ih h2)

theorem precedesB_tail {x : String} {xs : List String} {a b : String}
    (h : precedesB (x :: xs) a b = true) (hx : x ≠ a) :
    precedesB xs a b = true := by
  rw [precedesB] at h
  rcases Bool.or_eq_true_iff.mp h with h1 | h2
  · exact absurd (of_decide_eq_true (Bool.and_eq_true_iff.mp h1).1) hx
  · exact h2

theorem precedesB_head_ne_right {x : String} {xs : List String} {a b : String}
    (h : precedesB (x :: xs) a b = true) (hcnt : (x :: xs).count b ≤ 1) :
    x ≠ b := by
  intro he
  rw [precedesB] at h
  rcases Bool.or_eq_true_iff.mp h with h1 | h2
  · have hb : b ∈ xs := of_decide_eq_true (Bool.and_eq_true_iff.mp h1).2
    rw [List.count_cons] at hcnt
    simp [he] at hcnt
    have := List.count_pos_iff_mem.mpr hb
    omega
  · have hb : b ∈ xs := precedesB_mem_right h2
    rw [List.count_cons] at hcnt
    simp [he] at hcnt
    have := List.count_pos_iff_mem.mpr hb
    omega

theorem precedesB_head_ne_left {x : String} {xs : List String} {a b : String}
    (h : precedesB (x :: xs) a b = true) (hmem : a ∈ xs)
    (hcnt : (x :: xs).count a ≤ 1) : x ≠ a := by
  intro he
  rw [List.count_cons] at hcnt
  simp [he] at hcnt
  have := List.count_pos_iff_mem.mpr hmem
  omega

/-- After any single request, station `k`'s waiting queue is unchanged, has
one ticket appended at the tail, or has lost its head. -/
theorem queues_shape (st : ServerState) (op : Op) (k : String) :
    (applyOp st op).queues k = st.queues k ∨
    (∃ x, (applyOp st op).queues k = st.queues k ++ [x]) ∨
    (∃ hd rest, st.queues k = hd :: rest ∧ (applyOp st op).queues k = rest) := by
  cases op with
  | checkin ts name studentId program email staff =>
    simp only [applyOp]
    match name, program with
    | none, _ => exact Or.inl rfl
    | some n, none => exact Or.inl rfl
    | some n, some p =>
      by_cases hemp : n = "" ∨ p = ""
      · simp only [checkin, if_pos hemp]
        exact Or.inl (by simp)
      · simp only [checkin, if_neg hemp, makeTicketId]
        by_cases hkf : k = firstStep.key
        · subst hkf
          exact Or.inr (Or.inl ⟨firstStep.pfx ++ Nat.repr (st.seq + 1), upd_same _ _ _⟩)
        · exact Or.inl (upd_ne _ _ _ hkf)
  | startNext ts stepKey staff =>
    simp only [applyOp]
    by_cases hk : stepKey ∈ stepKeys
    · by_cases hserv : optTruthy (st.currentServing stepKey)
      · simp only [startNext, if_pos hk, if_pos hserv]
        exact Or.inl (by simp)
      · cases hq : st.queues stepKey with
        | nil =>
          simp only [startNext, if_pos hk, if_neg hserv, hq]
          exact Or.inl (by simp)
        | cons t0 rest =>
          by_cases ht0 : t0 = ""
          · simp only [startNext, if_pos hk, if_neg hserv, hq, if_pos ht0]
            by_cases hkk : k = stepKey
            · subst hkk
              exact Or.inr (Or.inr ⟨t0, rest, hq, upd_same _ _ _⟩)
            · exact Or.inl (upd_ne _ _ _ hkk)
          · simp only [startNext, if_pos hk, if_neg hserv, hq, if_neg ht0]
            cases hstu : st.students t0 with
            | none =>
              simp only [hstu]
              by_cases hkk : k = stepKey
              · subst hkk
                exact Or.inr (Or.inr ⟨t0, rest, hq, upd_same _ _ _⟩)
              · exact Or.inl (upd_ne _ _ _ hkk)
            | some stu =>
              simp only [hstu]
              by_cases hkk : k = stepKey
              · subst hkk
                exact Or.inr (Or.inr ⟨t0, rest, hq, upd_same _ _ _⟩)
              · exact Or.inl (upd_ne _ _ _ hkk)
    · simp only [startNext, if_neg hk]
      exact Or.inl (by simp)
  | formSave ts stepKey staff data ticket =>
    simp only [applyOp]
    by_cases htr : optTruthy (if optTruthy ticket then ticket else st.currentServing stepKey)
    · cases hstu : st.students ((if optTruthy ticket then ticket
        else st.currentServing stepKey).getD "") with
      | none =>
        simp only [formSave, if_pos htr, hstu]
        exact Or.inl (by simp)
      | some stu =>
        cases hsch : FORM_SCHEMAS stepKey with
        | none =>
          simp only [formSave, if_pos htr, hstu, hsch]
          exact Or.inl (by simp)
        | some schema =>
          simp only [formSave, if_pos htr, hstu, hsch]
          exact Or.inl (by simp)
    · simp only [formSave, if_neg htr]
      exact Or.inl (by simp)
  | complete ts stepKey staff noteB =>
    simp only [applyOp]
    by_cases hserv : optTruthy (st.currentServing stepKey)
    · cases hstu : st.students ((st.currentServing stepKey).getD "") with
      | none =>
        simp only [complete, if_pos hserv, hstu]
        exact Or.inl (by simp)
      | some stu =>
        cases hnxt : nextStepKey stepKey with
        | some k2 =>
          simp only [complete, if_pos hserv, hstu, student_mk_note_if, hnxt]
          by_cases hkk : k = k2
          · subst hkk
            exact Or.inr (Or.inl ⟨(st.currentServing stepKey).getD "", upd_same _ _ _⟩)
          · exact Or.inl (upd_ne _ _ _ hkk)
        | none =>
          simp only [complete, if_pos hserv, hstu, student_mk_note_if, hnxt]
          exact Or.inl (by simp)
    · simp only [complete, if_neg hserv]
      exact Or.inl (by simp)
  | hold ts stepKey staff =>
    simp only [applyOp]
    by_cases hserv : optTruthy (st.currentServing stepKey)
    · cases hstu : st.students ((st.currentServing stepKey).getD "") with
      | none =>
        simp only [hold, if_pos hserv, hstu]
        exact Or.inl (by simp)
      | some stu =>
        by_cases hk : stepKey ∈ stepKeys
        · simp only [hold, if_pos hserv, hstu, if_pos hk]
          exact Or.inl (by simp)
        · simp only [hold, if_pos hserv, hstu, if_neg hk]
          exact Or.inl (by simp)
    · simp only [hold, if_neg hserv]
      exact Or.inl (by simp)
  | ret ts stepKey ticket staff =>
    simp only [applyOp]
    by_cases hk : stepKey ∈ stepKeys
    · by_cases hmem : (st.holds stepKey).contains ticket
      · cases hstu : st.students ticket with
        | none =>
          simp only [ret, if_pos hk, if_pos hmem, hstu]
          by_cases hkk : k = stepKey
          · subst hkk
            exact Or.inr (Or.inl ⟨ticket, upd_same _ _ _⟩)
          · exact Or.inl (upd_ne _ _ _ hkk)
        | some stu =>
          simp only [ret, if_pos hk, if_pos hmem, hstu]
          by_cases hkk : k = stepKey
          · subst hkk
            exact Or.inr (Or.inl ⟨ticket, upd_same _ _ _⟩)
          · exact Or.inl (upd_ne _ _ _ hkk)
      · simp only [ret, if_pos hk, if_neg hmem]
        exact Or.inl (by simp)
    · simp only [ret, if_neg hk]
      exact Or.inl (by simp)
  | skip ts stepKey staff =>
    simp only [applyOp]
    by_cases hserv : optTruthy (st.currentServing stepKey)
    · by_cases hk : stepKey ∈ stepKeys
      · cases hstu : st.students ((st.currentServing stepKey).getD "") with
        | none =>
          simp only [skip, if_pos hserv, if_pos hk, hstu]
          by_cases hkk : k = stepKey
          · subst hkk
            exact Or.inr (Or.inl ⟨_, upd_same _ _ _⟩)
          · exact Or.inl (upd_ne _ _ _ hkk)
        | some stu =>
          simp only [skip, if_pos hserv, if_pos hk, hstu]
          by_cases hkk : k = stepKey
          · subst hkk
            exact Or.inr (Or.inl ⟨_, upd_same _ _ _⟩)
          · exact Or.inl (upd_ne _ _ _ hkk)
      · simp only [skip, if_pos hserv, if_neg hk]
        exact Or.inl (by simp)
    · simp only [skip, if_neg hserv]
      exact Or.inl (by simp)
  | addNote ts stepKey text staff ticket =>
    simp only [applyOp]
    by_cases htxt : ¬ optTruthy text ∨ jsTrim (text.getD "") = ""
    · simp only [addNote, if_pos htxt]
      exact Or.inl (by simp)
    · by_cases htr : optTruthy (if optTruthy ticket then ticket else st.currentServing stepKey)
      · cases hstu : st.students ((if optTruthy ticket then ticket
          else st.currentServing stepKey).getD "") with
        | none =>
          simp only [addNote, if_neg htxt, if_pos htr, hstu]
          exact Or.inl (by simp)
        | some stu =>
          simp only [addNote, if_neg htxt, if_pos htr, hstu]
          exact Or.inl (by simp)
      · simp only [addNote, if_neg htxt, if_neg htr]
        exact Or.inl (by simp)

/-- A single request preserves the relative order of two tickets that stay
in a waiting queue. -/
theorem queue_order_preserved (h : Inv st) (op : Op) {k a b : String}
    (hab : precedesB (st.queues k) a b = true)
    (hmem : a ∈ (applyOp st op).queues k) :
    precedesB ((applyOp st op).queues k) a b = true := by
  rcases queues_shape st op k with hsh | ⟨x, hsh⟩ | ⟨hd, rest, hsh1, hsh2⟩
  · rwa [hsh]
  · rw [hsh]
    exact precedesB_append x hab
  · rw [hsh2]
    rw [hsh2] at hmem
    rw [hsh1] at hab
    refine precedesB_tail hab ?_
    exact precedesB_head_ne_left hab hmem
      (by rw [← hsh1]; exact inv_queue_count_le_one h k a)

/-- While `a` still precedes `b` in station `k`'s queue, `startNext` cannot
yield `b`. -/
theorem startNext_not_yield (h : Inv st) (ts : String) {k : String}
    (staff : Option String) {a b : String}
    (hab : precedesB (st.queues k) a b = true) :
    (startNext st ts k staff).1 ≠ .ok (some b) := by
  by_cases hk : k ∈ stepKeys
  · by_cases hserv : optTruthy (st.currentServing k)
    · simp only [startNext, if_pos hk, if_pos hserv]
      intro hcon
      exact Api.noConfusion hcon
    · cases hq : st.queues k with
      | nil =>
        simp only [startNext, if_pos hk, if_neg hserv, hq]
        intro hcon
        have := Api.ok.inj hcon
        exact Option.noConfusion this
      | cons t0 rest =>
        have hne : t0 ≠ b := by
          rw [hq] at hab
          exact precedesB_head_ne_right hab
            (by rw [← hq]; exact inv_queue_count_le_one h k b)
        by_cases ht0 : t0 = ""
        · simp only [startNext, if_pos hk, if_neg hserv, hq, if_pos ht0]
          intro hcon
          have := Api.ok.inj hcon
          exact Option.noConfusion this
        · simp only [startNext, if_pos hk, if_neg hserv, hq, if_neg ht0]
          cases hstu : st.students t0 with
          | none =>
            simp only [hstu]
            intro hcon
            exact hne (Option.some.inj (Api.ok.inj hcon))
          | some stu =>
            simp only [hstu]
            intro hcon
            exact hne (Option.some.inj (Api.ok.inj hcon))
  · simp only [startNext, if_neg hk]
    intro hcon
    exact Api.noConfusion hcon

/-- C2.  Every operation (check-in, start-next, complete, hold, return, skip,
note, form save) preserves the placement invariant, and in the resulting
state every recorded ticket is present in at most one of all stations'
waiting queues, serving slots and held sets, and is in none of them exactly
when its status is `"complete"`. -/
theorem c2_placement_invariant (st : ServerState) (op : Op) (h : Inv st) :
    Inv (applyOp st op) ∧
    (∀ t stu, (applyOp st op).students t = some stu →
      occurrences (applyOp st op) t ≤ 1 ∧
      (occurrences (applyOp st op) t = 0 ↔ stu.status = "complete")) := by
  refine ⟨inv_applyOp h op, ?_⟩
  intro t stu hst
  exact inv_occurrences (inv_applyOp h op) t stu hst

/-- C3.  `start-next` on a station whose serving slot holds a ticket fails
with the conflict error reporting that ticket and returns the state
entirely unchanged. -/
theorem c3_startnext_conflict (st : ServerState) (ts k : String)
    (staff : Option String) (t : String) (hk : k ∈ stepKeys)
    (hsv : st.currentServing k = some t) (ht : t ≠ "") :
    startNext st ts k staff = (.conflict "Already serving a student" (some t), st) := by
  have hot : optTruthy (some t) = true := by
    simpa [optTruthy] using ht
  simp only [startNext, if_pos hk, hsv, hot, if_true]

/-- C6.  Completing the last station sets the student's status to the
terminal value `"complete"`, and a completed student's ticket never appears
in any station's waiting queue, serving slot or held set again, whatever
requests follow. -/
theorem c6_complete_terminal :
    (∀ st ts k staff noteB t stu, st.currentServing k = some t → t ≠ "" →
      st.students t = some stu → nextStepKey k = none →
      ∃ stu', (complete st ts k staff noteB).2.students t = some stu' ∧
        stu'.status = "complete") ∧
    (∀ st t stu ops k, Inv st → st.students t = some stu →
      stu.status = "complete" →
      t ∉ (run st ops).queues k ∧ (run st ops).currentServing k ≠ some t ∧
        t ∉ (run st ops).holds k) := by
  constructor
  · intro st ts k staff noteB t stu hsv ht hstu hnxt
    have hot : optTruthy (some t) = true := by
      simpa [optTruthy] using ht
    simp only [complete, hsv, hot, if_true, Option.getD_some, hstu,
      student_mk_note_if, hnxt]
    exact ⟨_, upd_same _ _ _, rfl⟩
  · intro st t stu ops k h hstu hc
    obtain ⟨stu', hstu', hc'⟩ := complete_stays_run h hstu hc ops
    have hnw := inv_complete_nowhere (inv_run h ops) hstu' hc'
    exact ⟨hnw.1 k, hnw.2.1 k, hnw.2.2 k⟩

/-- C10.  After any operation from an invariant state, every ticket present
in any station's waiting queue, serving slot or held set is a key of the
student record store. -/
theorem c10_tickets_have_records (st : ServerState) (op : Op) (h : Inv st)
    (t k : String)
    (hm : t ∈ (applyOp st op).queues k ∨ (applyOp st op).currentServing k = some t ∨
      t ∈ (applyOp st op).holds k) :
    ∃ stu, (applyOp st op).students t = some stu := by
  have h' := inv_applyOp h op
  rcases hm with hm | hm | hm
  · obtain ⟨stu, hstu, -⟩ := inv_mem_queue h' hm
    exact ⟨stu, hstu⟩
  · obtain ⟨stu, hstu, -⟩ := inv_serving h' hm
    exact ⟨stu, hstu⟩
  · obtain ⟨stu, hstu, -⟩ := inv_mem_holds h' hm
    exact ⟨stu, hstu⟩

/-- C1.  Station queues are served FIFO: `start-next` pops the head of the
waiting queue into the serving slot, setting the student's status to
`"serving"` and its current station; every operation preserves the relative
order of tickets remaining in a queue; and while `a` still precedes `b` in a
station's queue, `start-next` on that station can never yield `b`. -/
theorem c1_fifo_start_next :
    (∀ st ts k staff a rest stu, k ∈ stepKeys → st.currentServing k = none →
      st.queues k = a :: rest → a ≠ "" → st.students a = some stu →
      (startNext st ts k staff).1 = .ok (some a) ∧
      (startNext st ts k staff).2.queues k = rest ∧
      (startNext st ts k staff).2.currentServing k = some a ∧
      (∃ stu', (startNext st ts k staff).2.students a = some stu' ∧
        stu'.status = "serving" ∧ stu'.stepKey = k)) ∧
    (∀ st op k a b, Inv st → precedesB (st.queues k) a b = true →
      a ∈ (applyOp st op).queues k →
      precedesB ((applyOp st op).queues k) a b = true) ∧
    (∀ st ts k staff a b, Inv st → precedesB (st.queues k) a b = true →
      (startNext st ts k staff).1 ≠ .ok (some b)) := by
  refine ⟨?_, ?_, ?_⟩
  · intro st ts k staff a rest stu hk hsv hq ha hstu
    have hof : optTruthy (st.currentServing k) = false := by
      rw [hsv]; rfl
    simp only [startNext, if_pos hk, hof, Bool.false_eq_true, if_false, hq,
      if_neg ha, hstu]
    refine ⟨by trivial, ?_, ?_, ?_⟩
    · dsimp only
      exact upd_same _ _ _
    · dsimp only
      exact upd_same _ _ _
    · exact ⟨_, upd_same _ _ _, rfl, rfl⟩
  · intro st op k a b h hab hmem
    exact queue_order_preserved h op hab hmem
  · intro st ts k staff a b h hab
    exact startNext_not_yield h ts staff hab

/-- C4.  Check-in with a missing (absent or empty) name or program fails with
the validation error and leaves the whole state unchanged; with both present
it allocates the next ticket, creates a record in status `"queued"` at the
first station `"registration"`, and appends the ticket to that station's
waiting queue, leaving all other queues untouched. -/
theorem c4_checkin :
    (∀ st ts name studentId program email staff,
      ¬ optTruthy name = true ∨ ¬ optTruthy program = true →
      checkin st ts name studentId program email staff =
        (.badRequest "name and program are required", st)) ∧
    (∀ st ts n p studentId email staff, n ≠ "" → p ≠ "" →
      (checkin st ts (some n) studentId (some p) email staff).1 =
        .ok ("A" ++ Nat.repr (st.seq + 1)) ∧
      (checkin st ts (some n) studentId (some p) email staff).2.seq = st.seq + 1 ∧
      (∃ stu, (checkin st ts (some n) studentId (some p) email staff).2.students
          ("A" ++ Nat.repr (st.seq + 1)) = some stu ∧
        stu.status = "queued" ∧ stu.stepKey = "registration" ∧
        stu.name = n ∧ stu.program = p) ∧
      (checkin st ts (some n) studentId (some p) email staff).2.queues
          "registration" =
        st.queues "registration" ++ ["A" ++ Nat.repr (st.seq + 1)] ∧
      (∀ j, j ≠ "registration" →
        (checkin st ts (some n) studentId (some p) email staff).2.queues j =
          st.queues j)) := by
  constructor
  · intro st ts name studentId program email staff hmiss
    match name, program with
    | none, _ => rfl
    | some n, none =>
      cases program with
      | none => rfl
      | some p => rfl
    | some n, some p =>
      have hemp : n = "" ∨ p = "" := by
        rcases hmiss with hm | hm
        · left
          by_contra hne
          exact hm (by simpa [optTruthy] using hne)
        · right
          by_contra hne
          exact hm (by simpa [optTruthy] using hne)
      simp only [checkin, if_pos hemp]
  · intro st ts n p studentId email staff hn hp
    have hemp : ¬ (n = "" ∨ p = "") := by
      rintro (h | h)
      · exact hn h
      · exact hp h
    simp only [checkin, if_neg hemp, makeTicketId,
      show firstStep.pfx = "A" from rfl]
    refine ⟨by trivial, by trivial, ⟨_, upd_same _ _ _, rfl, rfl, rfl, rfl⟩, ?_, ?_⟩
    · exact upd_same _ _ _
    · intro j hj
      exact upd_ne _ _ _ (by simpa using hj)

/-- C5.  Completing a non-last station clears the serving slot, moves the
student to the pipeline successor in status `"queued"`, appends the ticket at
the tail of the successor's waiting queue exactly once (all other queues
untouched), and returns the successor's key. -/
theorem c5_complete_nonlast (st : ServerState) (ts k : String)
    (staff noteB : Option String) (t : String) (stu : Student) (k2 : String)
    (hsv : st.currentServing k = some t) (ht : t ≠ "")
    (hstu : st.students t = some stu) (hnxt : nextStepKey k = some k2) :
    (complete st ts k staff noteB).1 = .ok (some k2) ∧
    (complete st ts k staff noteB).2.currentServing k = none ∧
    (∃ stu', (complete st ts k staff noteB).2.students t = some stu' ∧
      stu'.stepKey = k2 ∧ stu'.status = "queued") ∧
    (complete st ts k staff noteB).2.queues k2 = st.queues k2 ++ [t] ∧
    (∀ j, j ≠ k2 → (complete st ts k staff noteB).2.queues j = st.queues j) := by
  have hot : optTruthy (some t) = true := by
    simpa [optTruthy] using ht
  simp only [complete, hsv, hot, if_true, Option.getD_some, hstu,
    student_mk_note_if, hnxt]
  refine ⟨by trivial, ?_, ⟨_, upd_same _ _ _, rfl, rfl⟩, ?_, ?_⟩
  · exact upd_same _ _ _
  · exact upd_same _ _ _
  · intro j hj
    exact upd_ne _ _ _ hj

/-- C7.  Hold moves the serving ticket into the station's held set with
status `"hold"` and clears the slot; return on a ticket not in the held set
fails not-found with the state unchanged; return on a held ticket removes it
from the held set, appends it at the tail of the same station's waiting
queue and sets status `"queued"`; and hold followed by return leaves the
held set without the ticket and the ticket at the tail of the waiting
queue. -/
theorem c7_hold_return :
    (∀ st ts k staff t stu, k ∈ stepKeys → st.currentServing k = some t →
      t ≠ "" → st.students t = some stu →
      (hold st ts k staff).1 = .ok () ∧
      (hold st ts k staff).2.currentServing k = none ∧
      t ∈ (hold st ts k staff).2.holds k ∧
      (∃ stu', (hold st ts k staff).2.students t = some stu' ∧
        stu'.status = "hold")) ∧
    (∀ st ts k tk staff, k ∈ stepKeys → tk ∉ st.holds k →
      ret st ts k tk staff = (.notFound "Ticket not on hold at this step", st)) ∧
    (∀ st ts k tk staff stu, k ∈ stepKeys → tk ∈ st.holds k →
      st.students tk = some stu →
      (ret st ts k tk staff).1 = .ok () ∧
      tk ∉ (ret st ts k tk staff).2.holds k ∧
      (ret st ts k tk staff).2.queues k = st.queues k ++ [tk] ∧
      (∃ stu', (ret st ts k tk staff).2.students tk = some stu' ∧
        stu'.status = "queued")) ∧
    (∀ st ts1 ts2 k staff t stu, k ∈ stepKeys → st.currentServing k = some t →
      t ≠ "" → st.students t = some stu →
      (ret (hold st ts1 k staff).2 ts2 k t staff).1 = .ok () ∧
      t ∉ (ret (hold st ts1 k staff).2 ts2 k t staff).2.holds k ∧
      (ret (hold st ts1 k staff).2 ts2 k t staff).2.queues k =
        st.queues k ++ [t] ∧
      (∃ stu', (ret (hold st ts1 k staff).2 ts2 k t staff).2.students t =
        some stu' ∧ stu'.status = "queued")) := by
  have holdRed : ∀ st ts (k : String) staff t stu, k ∈ stepKeys →
      st.currentServing k = some t → t ≠ "" → st.students t = some stu →
      hold st ts k staff = (.ok (),
        { st with
            currentServing := upd st.currentServing k none
            students := upd st.students t (some { stu with
              status := "hold"
              history := stu.history ++ [⟨k, "hold", ts, normOpt staff, none⟩] })
            holds := upd st.holds k (setAdd (st.holds k) t)
            auditLogs := st.auditLogs ++
              [⟨ts, "hold", some k, some t, normOpt staff, none, .none⟩] }) := by
    intro st ts k staff t stu hk hsv ht hstu
    have hot : optTruthy (some t) = true := by
      simpa [optTruthy] using ht
    simp only [hold, hsv, hot, if_true, Option.getD_some, hstu, if_pos hk]
  have retRed : ∀ st ts (k : String) tk staff stu, k ∈ stepKeys →
      tk ∈ st.holds k → st.students tk = some stu →
      ret st ts k tk staff = (.ok (),
        { st with
            holds := upd st.holds k (setDel (st.holds k) tk)
            queues := upd st.queues k (st.queues k ++ [tk])
            students := upd st.students tk (some { stu with
              status := "queued"
              history := stu.history ++ [⟨k, "return", ts, normOpt staff, none⟩] })
            auditLogs := st.auditLogs ++
              [⟨ts, "return", some k, some tk, normOpt staff, none, .none⟩] }) := by
    intro st ts k tk staff stu hk hmem hstu
    have hc : (st.holds k).contains tk = true := by simpa using hmem
    simp only [ret, if_pos hk, hc, if_true, hstu]
  refine ⟨?_, ?_, ?_, ?_⟩
  · intro st ts k staff t stu hk hsv ht hstu
    rw [holdRed st ts k staff t stu hk hsv ht hstu]
    refine ⟨rfl, upd_same _ _ _, ?_, ⟨_, upd_same _ _ _, rfl⟩⟩
    dsimp only
    rw [upd_same, setAdd]
    by_cases hc : (st.holds k).contains t
    · rw [if_pos hc]
      simpa using hc
    · rw [if_neg hc]
      exact List.mem_append.mpr (Or.inr (List.mem_singleton.mpr rfl))
  · intro st ts k tk staff hk hnm
    have hc : (st.holds k).contains tk = false := by
      simpa using hnm
    simp only [ret, if_pos hk, hc, Bool.false_eq_true, if_false]
  · intro st ts k tk staff stu hk hmem hstu
    rw [retRed st ts k tk staff stu hk hmem hstu]
    refine ⟨rfl, ?_, upd_same _ _ _, ⟨_, upd_same _ _ _, rfl⟩⟩
    dsimp only
    rw [upd_same, setDel]
    intro hm
    have := (List.mem_filter.mp hm).2
    simp at this
  · intro st ts1 ts2 k staff t stu hk hsv ht hstu
    rw [holdRed st ts1 k staff t stu hk hsv ht hstu]
    set stuH : Student := { stu with
      status := "hold"
      history := stu.history ++ [⟨k, "hold", ts1, normOpt staff, none⟩] } with hstuH
    set stH : ServerState := { st with
        currentServing := upd st.currentServing k none
        students := upd st.students t (some stuH)
        holds := upd st.holds k (setAdd (st.holds k) t)
        auditLogs := st.auditLogs ++
          [⟨ts1, "hold", some k, some t, normOpt staff, none, .none⟩] } with hstH
    have hmemH : t ∈ stH.holds k := by
      rw [hstH]
      dsimp only
      rw [upd_same, setAdd]
      by_cases hc : (st.holds k).contains t
      · rw [if_pos hc]
        simpa using hc
      · rw [if_neg hc]
        exact List.mem_append.mpr (Or.inr (List.mem_singleton.mpr rfl))
    have hstuH2 : stH.students t = some stuH := by
      rw [hstH]
      dsimp only
      exact upd_same _ _ _
    rw [retRed stH ts2 k t staff stuH hk hmemH hstuH2]
    refine ⟨rfl, ?_, ?_, ⟨_, upd_same _ _ _, rfl⟩⟩
    · dsimp only
      rw [upd_same, setDel]
      intro hm
      have := (List.mem_filter.mp hm).2
      simp at this
    · show upd stH.queues k (stH.queues k ++ [t]) k = st.queues k ++ [t]
      rw [upd_same]

/-- C8 counterexample.  `start-next` on a station with an empty waiting queue
is a successful call (HTTP 200 with `ticket: null`) that appends nothing to
the audit log, refuting "every successful mutating call increases the audit
log length by exactly one". -/
theorem c8_counterexample :
    (startNext initState "t0" "registration" none).1 = .ok none ∧
    (startNext initState "t0" "registration" none).2.auditLogs.length =
      initState.auditLogs.length := by
  constructor
  · rfl
  · rfl

/-- C8 (amended).  Every successful mutating call appends exactly one audit
record whose event kind, station and ticket match the operation — except
that start-next on an empty queue succeeds with no ticket and appends
nothing, and complete at the last station appends two records (the complete
record followed by the finalize snapshot). -/
theorem c8_audit_amended :
    (∀ st ts n p studentId email staff, n ≠ "" → p ≠ "" →
      ∃ ev, (checkin st ts (some n) studentId (some p) email staff).2.auditLogs =
          st.auditLogs ++ [ev] ∧
        ev.event = "checkin" ∧ ev.stepKey = some "registration" ∧
        ev.ticket = some ("A" ++ Nat.repr (st.seq + 1))) ∧
    (∀ st ts k staff a rest stu, k ∈ stepKeys → st.currentServing k = none →
      st.queues k = a :: rest → a ≠ "" → st.students a = some stu →
      ∃ ev, (startNext st ts k staff).2.auditLogs = st.auditLogs ++ [ev] ∧
        ev.event = "start" ∧ ev.stepKey = some k ∧ ev.ticket = some a) ∧
    (∀ st ts k staff, k ∈ stepKeys → st.currentServing k = none →
      st.queues k = [] →
      (startNext st ts k staff).1 = .ok none ∧
      (startNext st ts k staff).2.auditLogs = st.auditLogs) ∧
    (∀ st ts k staff noteB t stu k2, st.currentServing k = some t → t ≠ "" →
      st.students t = some stu → nextStepKey k = some k2 →
      ∃ ev, (complete st ts k staff noteB).2.auditLogs = st.auditLogs ++ [ev] ∧
        ev.event = "complete" ∧ ev.stepKey = some k ∧ ev.ticket = some t) ∧
    (∀ st ts k staff noteB t stu, st.currentServing k = some t → t ≠ "" →
      st.students t = some stu → nextStepKey k = none →
      ((complete st ts k staff noteB).2.auditLogs).length =
        st.auditLogs.length + 2 ∧
      ((complete st ts k staff noteB).2.auditLogs).take st.auditLogs.length =
        st.auditLogs ∧
      (((complete st ts k staff noteB).2.auditLogs).drop st.auditLogs.length).map
          (fun e => (e.event, e.stepKey, e.ticket)) =
        [("complete", some k, some t), ("finalize", some k, some t)]) ∧
    (∀ st ts k staff t stu, k ∈ stepKeys → st.currentServing k = some t →
      t ≠ "" → st.students t = some stu →
      ∃ ev, (hold st ts k staff).2.auditLogs = st.auditLogs ++ [ev] ∧
        ev.event = "hold" ∧ ev.stepKey = some k ∧ ev.ticket = some t) ∧
    (∀ st ts k tk staff stu, k ∈ stepKeys → tk ∈ st.holds k →
      st.students tk = some stu →
      ∃ ev, (ret st ts k tk staff).2.auditLogs = st.auditLogs ++ [ev] ∧
        ev.event = "return" ∧ ev.stepKey = some k ∧ ev.ticket = some tk) ∧
    (∀ st ts k staff t stu, k ∈ stepKeys → st.currentServing k = some t →
      t ≠ "" → st.students t = some stu →
      ∃ ev, (skip st ts k staff).2.auditLogs = st.auditLogs ++ [ev] ∧
        ev.event = "skip" ∧ ev.stepKey = some k ∧ ev.ticket = some t) ∧
    (∀ st ts k x staff tk stu, jsTrim x ≠ "" → tk ≠ "" →
      st.students tk = some stu →
      ∃ ev, (addNote st ts k (some x) staff (some tk)).2.auditLogs =
          st.auditLogs ++ [ev] ∧
        ev.event = "note_add" ∧ ev.stepKey = some k ∧ ev.ticket = some tk) ∧
    (∀ st ts k staff data tk stu schema, tk ≠ "" →
      st.students tk = some stu → FORM_SCHEMAS k = some schema →
      ∃ ev, (formSave st ts k staff data (some tk)).2.auditLogs =
          st.auditLogs ++ [ev] ∧
        ev.event = "form_save" ∧ ev.stepKey = some k ∧ ev.ticket = some tk) := by
  refine ⟨?_, ?_, ?_, ?_, ?_, ?_, ?_, ?_, ?_, ?_⟩
  · intro st ts n p studentId email staff hn hp
    have hemp : ¬ (n = "" ∨ p = "") := by
      rintro (h | h)
      · exact hn h
      · exact hp h
    simp only [checkin, if_neg hemp, makeTicketId,
      show firstStep.pfx = "A" from rfl]
    refine ⟨_, rfl, ?_, ?_, ?_⟩ <;> rfl
  · intro st ts k staff a rest stu hk hsv hq ha hstu
    have hof : optTruthy (st.currentServing k) = false := by rw [hsv]; rfl
    simp only [startNext, if_pos hk, hof, Bool.false_eq_true, if_false, hq,
      if_neg ha, hstu]
    refine ⟨_, rfl, ?_, ?_, ?_⟩ <;> rfl
  · intro st ts k staff hk hsv hq
    have hof : optTruthy (st.currentServing k) = false := by rw [hsv]; rfl
    simp only [startNext, if_pos hk, hof, Bool.false_eq_true, if_false, hq]
    exact ⟨by trivial, by trivial⟩
  · intro st ts k staff noteB t stu k2 hsv ht hstu hnxt
    have hot : optTruthy (some t) = true := by simpa [optTruthy] using ht
    simp only [complete, hsv, hot, if_true, Option.getD_some, hstu,
      student_mk_note_if, hnxt]
    refine ⟨_, rfl, ?_, ?_, ?_⟩ <;> rfl
  · intro st ts k staff noteB t stu hsv ht hstu hnxt
    have hot : optTruthy (some t) = true := by simpa [optTruthy] using ht
    simp only [complete, hsv, hot, if_true, Option.getD_some, hstu,
      student_mk_note_if, hnxt]
    refine ⟨?_, ?_, ?_⟩
    · show ((st.auditLogs ++ _) ++ _).length = _
      rw [List.append_assoc, List.length_append]
      rfl
    · show ((st.auditLogs ++ _) ++ _).take _ = _
      rw [List.append_assoc]
      exact List.take_left _ _
    · show (((st.auditLogs ++ _) ++ _).drop _).map _ = _
      rw [List.append_assoc, List.drop_left]
      rfl

  · intro st ts k staff t stu hk hsv ht hstu
    have hot : optTruthy (some t) = true := by simpa [optTruthy] using ht
    simp only [hold, hsv, hot, if_true, Option.getD_some, hstu, if_pos hk]
    refine ⟨_, rfl, ?_, ?_, ?_⟩ <;> rfl
  · intro st ts k tk staff stu hk hmem hstu
    have hc : (st.holds k).contains tk = true := by simpa using hmem
    simp only [ret, if_pos hk, hc, if_true, hstu]
    refine ⟨_, rfl, ?_, ?_, ?_⟩ <;> rfl
  · intro st ts k staff t stu hk hsv ht hstu
    have hot : optTruthy (some t) = true := by simpa [optTruthy] using ht
    simp only [skip, hsv, hot, if_true, Option.getD_some, hstu, if_pos hk]
    refine ⟨_, rfl, ?_, ?_, ?_⟩ <;> rfl
  · intro st ts k x staff tk stu htrim htk hstu
    have hx : x ≠ "" := by
      intro he
      rw [he] at htrim
      exact htrim (by decide)
    have hcond : ¬ (¬ optTruthy (some x) = true ∨ jsTrim x = "") := by
      rintro (hcon | hcon)
      · exact hcon (by simpa [optTruthy] using hx)
      · exact htrim hcon
    have hot : optTruthy (some tk) = true := by simpa [optTruthy] using htk
    simp only [addNote, Option.getD_some, hot, if_true, if_neg hcond, hstu]
    refine ⟨_, rfl, ?_, ?_, ?_⟩ <;> rfl
  · intro st ts k staff data tk stu schema htk hstu hsch
    have hot : optTruthy (some tk) = true := by simpa [optTruthy] using htk
    simp only [formSave, hot, if_true, Option.getD_some, hstu, hsch]
    refine ⟨_, rfl, ?_, ?_, ?_⟩ <;> rfl

theorem syncReg_forms (s : Student) (inc : FormObj) :
    (syncReg s inc).forms = s.forms := by
  simp [syncReg, apply_ite Student.forms]

/-- The forms update of `formSave` stores the merged object under the step
key. -/
theorem lookup_set_forms (forms : List (String × FormObj)) (k : String)
    (nf : FormObj) :
    List.lookup k (forms.map (fun p => if p.1 = k then (k, nf) else p) ++
      (if (List.lookup k forms).isNone then [(k, nf)] else [])) = some nf := by
  induction forms with
  | nil => simp [List.lookup]
  | cons a rest ih =>
    obtain ⟨a1, a2⟩ := a
    by_cases ha : a1 = k
    · subst ha
      have hl : List.lookup a1 ((a1, a2) :: rest) = some a2 := by
        simp [List.lookup]
      rw [List.map_cons, hl]
      simp only [Option.isSome_some, Option.isNone_some, Bool.false_eq_true,
        if_false, List.append_nil]
      simp [List.lookup]
    · have hne : (k == a1) = false := by
        simp
        exact fun he => ha he.symm
      have hl : List.lookup k ((a1, a2) :: rest) = List.lookup k rest := by
        simp [List.lookup, hne]
      rw [List.map_cons, hl]
      simp only [if_neg ha]
      rw [List.cons_append]
      simp only [List.lookup, hne]
      exact ih

/-- C9.  Form save fails not-found — leaving the state unchanged — when the
resolved ticket has no student record or the station key has no registered
schema; on success the normalized fields are shallow-merged into the
student's per-station form data. -/
theorem c9_form_save :
    (∀ st ts k staff data tk, tk ≠ "" → st.students tk = none →
      formSave st ts k staff data (some tk) = (.notFound "Ticket not found", st)) ∧
    (∀ st ts k staff data tk stu, tk ≠ "" → st.students tk = some stu →
      FORM_SCHEMAS k = none →
      formSave st ts k staff data (some tk) = (.notFound "Unknown step", st)) ∧
    (∀ st ts k staff data tk stu schema, tk ≠ "" →
      st.students tk = some stu → FORM_SCHEMAS k = some schema →
      (formSave st ts k staff data (some tk)).1 =
        .ok (mergeObj ((List.lookup k stu.forms).getD [])
          (schema (data.getD (fun _ => .undefined)))) ∧
      (∃ stu', (formSave st ts k staff data (some tk)).2.students tk = some stu' ∧
        List.lookup k stu'.forms =
          some (mergeObj ((List.lookup k stu.forms).getD [])
            (schema (data.getD (fun _ => .undefined)))))) := by
  refine ⟨?_, ?_, ?_⟩
  · intro st ts k staff data tk htk hstu
    have hot : optTruthy (some tk) = true := by simpa [optTruthy] using htk
    simp only [formSave, hot, if_true, Option.getD_some, hstu]
  · intro st ts k staff data tk stu htk hstu hsch
    have hot : optTruthy (some tk) = true := by simpa [optTruthy] using htk
    simp only [formSave, hot, if_true, Option.getD_some, hstu, hsch]
  · intro st ts k staff data tk stu schema htk hstu hsch
    have hot : optTruthy (some tk) = true := by simpa [optTruthy] using htk
    simp only [formSave, hot, if_true, Option.getD_some, hstu, hsch]
    refine ⟨by trivial, ⟨_, upd_same _ _ _, ?_⟩⟩
    dsimp only
    rw [apply_ite Student.forms, syncReg_forms, ite_self]
    exact lookup_set_forms stu.forms k _

theorem inv_stC : Inv stC := by
  refine ⟨by norm_num [stC], ?_, ?_, ?_⟩
  · intro k _
    exact ⟨rfl, rfl, rfl⟩
  · intro t stu hst
    have hst' : upd (fun _ => none) "A1001" (some stuC) t = some stu := hst
    by_cases ht : t = "A1001"
    · subst ht
      rw [upd_same] at hst'
      cases hst'
      refine ⟨rfl, ⟨1001, by omega, by norm_num [stC], by decide⟩, ?_⟩
      refine Or.inr (Or.inr (Or.inr ⟨rfl, fun k => ?_, fun k => ?_, fun k => ?_⟩))
      · simp [stC]
      · simp [stC]
      · simp [stC]
    · rw [upd_ne _ _ _ ht] at hst'
      exact Option.noConfusion hst' 
  · intro t _
    exact ⟨fun k => by simp [stC], fun k => by simp [stC], fun k => by simp [stC]⟩

/-- Witness for C1 at a two-student queue. -/
theorem c1_fifo_start_next_witness :
    ((startNext stTwo "t3" "registration" none).1 = .ok (some "A1001") ∧
     (startNext stTwo "t3" "registration" none).2.queues "registration" = ["A1002"] ∧
     (startNext stTwo "t3" "registration" none).2.currentServing "registration" =
       some "A1001" ∧
     (∃ stu', (startNext stTwo "t3" "registration" none).2.students "A1001" =
        some stu' ∧ stu'.status = "serving" ∧ stu'.stepKey = "registration")) ∧
    precedesB ((applyOp stTwo
        (.checkin "t4" (some "Zoe") none (some "BX") none none)).queues
        "registration") "A1001" "A1002" = true ∧
    (startNext stTwo "t3" "registration" none).1 ≠ .ok (some "A1002") :=
  ⟨c1_fifo_start_next.1 stTwo "t3" "registration" none "A1001" ["A1002"] stuJane
      (by decide) (by decide) (by decide) (by decide) (by decide),
   c1_fifo_start_next.2.1 stTwo
      (.checkin "t4" (some "Zoe") none (some "BX") none none) "registration"
      "A1001" "A1002" (inv_run inv_init opsTwo) (by decide) (by decide),
   c1_fifo_start_next.2.2 stTwo "t3" "registration" none "A1001" "A1002"
      (inv_run inv_init opsTwo) (by decide)⟩

/-- Witness for C2: the first check-in from the initial state. -/
theorem c2_placement_invariant_witness :
    occurrences (applyOp initState
      (.checkin "t1" (some "Jane") none (some "BA") none none)) "A1001" ≤ 1 ∧
    (occurrences (applyOp initState
      (.checkin "t1" (some "Jane") none (some "BA") none none)) "A1001" = 0 ↔
      stuJane.status = "complete") :=
  (c2_placement_invariant initState
    (.checkin "t1" (some "Jane") none (some "BA") none none) inv_init).2
    "A1001" stuJane (by decide)

/-- Witness for C3: a second start-next while `A1001` is being served. -/
theorem c3_startnext_conflict_witness :
    startNext stServing "t3" "registration" none =
      (.conflict "Already serving a student" (some "A1001"), stServing) :=
  c3_startnext_conflict stServing "t3" "registration" none "A1001"
    (by decide) (by decide) (by decide)

/-- Witness for C10: after the first check-in, the queued ticket has a
record. -/
theorem c10_tickets_have_records_witness :
    ∃ stu, (applyOp initState
      (.checkin "t1" (some "Jane") none (some "BA") none none)).students
        "A1001" = some stu :=
  c10_tickets_have_records initState
    (.checkin "t1" (some "Jane") none (some "BA") none none) inv_init
    "A1001" "registration" (Or.inl (by decide))

/-- Witness for C4: missing name fails; a full check-in succeeds. -/
theorem c4_checkin_witness :
    checkin initState "t0" none none (some "BA") none none =
      (.badRequest "name and program are required", initState) ∧
    ((checkin initState "t1" (some "Jane") none (some "BA") none none).1 =
        .ok ("A" ++ Nat.repr (initState.seq + 1)) ∧
      (checkin initState "t1" (some "Jane") none (some "BA") none none).2.seq =
        initState.seq + 1 ∧
      (∃ stu, (checkin initState "t1" (some "Jane") none
          (some "BA") none none).2.students
          ("A" ++ Nat.repr (initState.seq + 1)) = some stu ∧
        stu.status = "queued" ∧ stu.stepKey = "registration" ∧
        stu.name = "Jane" ∧ stu.program = "BA") ∧
      (checkin initState "t1" (some "Jane") none (some "BA") none none).2.queues
          "registration" =
        initState.queues "registration" ++ ["A" ++ Nat.repr (initState.seq + 1)] ∧
      (∀ j, j ≠ "registration" →
        (checkin initState "t1" (some "Jane") none
          (some "BA") none none).2.queues j = initState.queues j)) :=
  ⟨c4_checkin.1 initState "t0" none none (some "BA") none none
      (Or.inl (by decide)),
   c4_checkin.2 initState "t1" "Jane" "BA" none none none
      (by decide) (by decide)⟩

/-- Witness for C5: completing registration while serving `A1001`. -/
theorem c5_complete_nonlast_witness :
    (complete stServing "t3" "registration" none none).1 = .ok (some "marketing") ∧
    (complete stServing "t3" "registration" none none).2.currentServing
      "registration" = none ∧
    (∃ stu', (complete stServing "t3" "registration" none none).2.students
        "A1001" = some stu' ∧
      stu'.stepKey = "marketing" ∧ stu'.status = "queued") ∧
    (complete stServing "t3" "registration" none none).2.queues "marketing" =
      stServing.queues "marketing" ++ ["A1001"] ∧
    (∀ j, j ≠ "marketing" →
      (complete stServing "t3" "registration" none none).2.queues j =
        stServing.queues j) :=
  c5_complete_nonlast stServing "t3" "registration" none none "A1001"
    stuJaneServing "marketing" (by decide) (by decide) (by decide) (by decide)

/-- Witness for C6: completing the last station marks the record complete,
and a completed ticket stays out of all structures across later requests. -/
theorem c6_complete_terminal_witness :
    (∃ stu', (complete stLast "t2" "student_id" none none).2.students "A1001" =
        some stu' ∧ stu'.status = "complete") ∧
    ("A1001" ∉ (run stC [.startNext "t9" "registration" none]).queues
        "registration" ∧
      (run stC [.startNext "t9" "registration" none]).currentServing
        "registration" ≠ some "A1001" ∧
      "A1001" ∉ (run stC [.startNext "t9" "registration" none]).holds
        "registration") :=
  ⟨c6_complete_terminal.1 stLast "t2" "student_id" none none "A1001" stuLast
      (by decide) (by decide) (by decide) (by decide),
   c6_complete_terminal.2 stC "A1001" stuC [.startNext "t9" "registration" none]
      "registration" inv_stC (by decide) (by decide)⟩

/-- Witness for C7: hold, failing return, successful return, and the
composed hold-then-return scenario. -/
theorem c7_hold_return_witness :
    ((hold stServing "t3" "registration" none).1 = .ok () ∧
      (hold stServing "t3" "registration" none).2.currentServing
        "registration" = none ∧
      "A1001" ∈ (hold stServing "t3" "registration" none).2.holds
        "registration" ∧
      (∃ stu', (hold stServing "t3" "registration" none).2.students "A1001" =
        some stu' ∧ stu'.status = "hold")) ∧
    ret initState "t0" "registration" "A1001" none =
      (.notFound "Ticket not on hold at this step", initState) ∧
    ((ret stHeld "t4" "registration" "A1001" none).1 = .ok () ∧
      "A1001" ∉ (ret stHeld "t4" "registration" "A1001" none).2.holds
        "registration" ∧
      (ret stHeld "t4" "registration" "A1001" none).2.queues "registration" =
        stHeld.queues "registration" ++ ["A1001"] ∧
      (∃ stu', (ret stHeld "t4" "registration" "A1001" none).2.students
        "A1001" = some stu' ∧ stu'.status = "queued")) ∧
    ((ret (hold stServing "t3" "registration" none).2 "t4" "registration"
        "A1001" none).1 = .ok () ∧
      "A1001" ∉ (ret (hold stServing "t3" "registration" none).2 "t4"
        "registration" "A1001" none).2.holds "registration" ∧
      (ret (hold stServing "t3" "registration" none).2 "t4" "registration"
        "A1001" none).2.queues "registration" =
        stServing.queues "registration" ++ ["A1001"] ∧
      (∃ stu', (ret (hold stServing "t3" "registration" none).2 "t4"
        "registration" "A1001" none).2.students "A1001" = some stu' ∧
        stu'.status = "queued")) :=
  ⟨c7_hold_return.1 stServing "t3" "registration" none "A1001" stuJaneServing
      (by decide) (by decide) (by decide) (by decide),
   c7_hold_return.2.1 initState "t0" "registration" "A1001" none
      (by decide) (by decide),
   c7_hold_return.2.2.1 stHeld "t4" "registration" "A1001" none stuJaneHold
      (by decide) (by decide) (by decide),
   c7_hold_return.2.2.2 stServing "t3" "t4" "registration" none "A1001"
      stuJaneServing (by decide) (by decide) (by decide) (by decide)⟩

/-- Witness for the amended C8 at concrete states, one per operation. -/
theorem c8_audit_amended_witness :
    (∃ ev, (checkin initState "t1" (some "Jane") none
        (some "BA") none none).2.auditLogs = initState.auditLogs ++ [ev] ∧
      ev.event = "checkin" ∧ ev.stepKey = some "registration" ∧
      ev.ticket = some ("A" ++ Nat.repr (initState.seq + 1))) ∧
    (∃ ev, (startNext stOne "t2" "registration" none).2.auditLogs =
        stOne.auditLogs ++ [ev] ∧
      ev.event = "start" ∧ ev.stepKey = some "registration" ∧
      ev.ticket = some "A1001") ∧
    ((startNext initState "t0" "registration" none).1 = .ok none ∧
      (startNext initState "t0" "registration" none).2.auditLogs =
        initState.auditLogs) ∧
    (∃ ev, (complete stServing "t3" "registration" none none).2.auditLogs =
        stServing.auditLogs ++ [ev] ∧
      ev.event = "complete" ∧ ev.stepKey = some "registration" ∧
      ev.ticket = some "A1001") ∧
    (((complete stLast "t2" "student_id" none none).2.auditLogs).length =
        stLast.auditLogs.length + 2 ∧
      ((complete stLast "t2" "student_id" none none).2.auditLogs).take
        stLast.auditLogs.length = stLast.auditLogs ∧
      (((complete stLast "t2" "student_id" none none).2.auditLogs).drop
          stLast.auditLogs.length).map (fun e => (e.event, e.stepKey, e.ticket)) =
        [("complete", some "student_id", some "A1001"),
         ("finalize", some "student_id", some "A1001")]) ∧
    (∃ ev, (hold stServing "t3" "registration" none).2.auditLogs =
        stServing.auditLogs ++ [ev] ∧
      ev.event = "hold" ∧ ev.stepKey = some "registration" ∧
      ev.ticket = some "A1001") ∧
    (∃ ev, (ret stHeld "t4" "registration" "A1001" none).2.auditLogs =
        stHeld.auditLogs ++ [ev] ∧
      ev.event = "return" ∧ ev.stepKey = some "registration" ∧
      ev.ticket = some "A1001") ∧
    (∃ ev, (skip stServing "t3" "registration" none).2.auditLogs =
        stServing.auditLogs ++ [ev] ∧
      ev.event = "skip" ∧ ev.stepKey = some "registration" ∧
      ev.ticket = some "A1001") ∧
    (∃ ev, (addNote stOne "t2" "registration" (some "hi") none
        (some "A1001")).2.auditLogs = stOne.auditLogs ++ [ev] ∧
      ev.event = "note_add" ∧ ev.stepKey = some "registration" ∧
      ev.ticket = some "A1001") ∧
    (∃ ev, (formSave stOne "t2" "marketing" none none
        (some "A1001")).2.auditLogs = stOne.auditLogs ++ [ev] ∧
      ev.event = "form_save" ∧ ev.stepKey = some "marketing" ∧
      ev.ticket = some "A1001") :=
  ⟨c8_audit_amended.1 initState "t1" "Jane" "BA" none none none
      (by decide) (by decide),
   c8_audit_amended.2.1 stOne "t2" "registration" none "A1001" [] stuJane
      (by decide) (by decide) (by decide) (by decide) (by decide),
   c8_audit_amended.2.2.1 initState "t0" "registration" none
      (by decide) (by decide) (by decide),
   c8_audit_amended.2.2.2.1 stServing "t3" "registration" none none "A1001"
      stuJaneServing "marketing" (by decide) (by decide) (by decide) (by decide),
   c8_audit_amended.2.2.2.2.1 stLast "t2" "student_id" none none "A1001"
      stuLast (by decide) (by decide) (by decide) (by decide),
   c8_audit_amended.2.2.2.2.2.1 stServing "t3" "registration" none "A1001"
      stuJaneServing (by decide) (by decide) (by decide) (by decide),
   c8_audit_amended.2.2.2.2.2.2.1 stHeld "t4" "registration" "A1001" none
      stuJaneHold (by decide) (by decide) (by decide),
   c8_audit_amended.2.2.2.2.2.2.2.1 stServing "t3" "registration" none "A1001"
      stuJaneServing (by decide) (by decide) (by decide) (by decide),
   c8_audit_amended.2.2.2.2.2.2.2.2.1 stOne "t2" "registration" "hi" none
      "A1001" stuJane (by decide) (by decide) (by decide),
   c8_audit_amended.2.2.2.2.2.2.2.2.2 stOne "t2" "marketing" none none
      "A1001" stuJane marketingSchema (by decide) (by decide) rfl⟩

/-- Witness for C9: unknown ticket, unknown step, and a successful save. -/
theorem c9_form_save_witness :
    formSave initState "t0" "registration" none none (some "ZZZ") =
      (.notFound "Ticket not found", initState) ∧
    formSave stOne "t2" "bogus" none none (some "A1001") =
      (.notFound "Unknown step", stOne) ∧
    ((formSave stOne "t2" "marketing" none none (some "A1001")).1 =
      .ok (mergeObj ((List.lookup "marketing" stuJane.forms).getD [])
        (marketingSchema ((none : Option Obj).getD (fun _ => .undefined)))) ∧
    (∃ stu', (formSave stOne "t2" "marketing" none none
        (some "A1001")).2.students "A1001" = some stu' ∧
      List.lookup "marketing" stu'.forms =
        some (mergeObj ((List.lookup "marketing" stuJane.forms).getD [])
          (marketingSchema ((none : Option Obj).getD (fun _ => .undefined)))))) :=
  ⟨c9_form_save.1 initState "t0" "registration" none none "ZZZ"
      (by decide) (by decide),
   c9_form_save.2.1 stOne "t2" "bogus" none none "A1001" stuJane
      (by decide) (by decide) rfl,
   c9_form_save.2.2 stOne "t2" "marketing" none none "A1001" stuJane
      marketingSchema (by decide) (by decide) rfl⟩

end QS

